import Mathlib

set_option maxHeartbeats 1000000
set_option maxRecDepth 8000

/-!
Shallow embedding of the heuristic recipe pipeline of the
`tiktok_to_notion_recipe` repository (`src/recipe_parser.py`,
`src/recipe_extractor.py`, `src/constants.py`, plus the orchestration in
`RecipeExtractor.build` / `build_recipe_content`).

Python regular expressions are embedded through a small backtracking
pattern engine (`Pat` / `mtch`) that mirrors the semantics of Python's
`re` module for the constructs the repository uses: greedy repetition
(longest alternative explored first), first-listed alternative
preference, optional groups trying the present branch first, `\b` word
boundaries and the `$` anchor.  Case-insensitive patterns (`re.I`) are
run on the lowercased subject, with capture groups recorded as positions
and sliced out of the original subject, which is exactly how
case-insensitive matching behaves for these patterns.  Character classes
(`\s`, `\w`, `\d`, case mapping) are modelled on the ASCII and Latin-1
ranges that the repository's vocabulary and test data use.
-/

/-- Python whitespace class `\s` (ASCII range). -/
def pyWs (c : Char) : Bool :=
  c = ' ' || c = '\t' || c = '\n' || c = '\r' || c = Char.ofNat 11 || c = Char.ofNat 12

/-- Python `str.lower` on the ASCII and Latin-1 letter ranges. -/
def pyLower (c : Char) : Char :=
  if 'A' ≤ c && c ≤ 'Z' then Char.ofNat (c.toNat + 32)
  else if 0xC0 ≤ c.toNat && c.toNat ≤ 0xDE && c.toNat ≠ 0xD7 then Char.ofNat (c.toNat + 32)
  else if c.toNat = 0x178 then Char.ofNat 0xFF
  else c

/-- Python word-character class `\w` on the ASCII and Latin ranges. -/
def pyWordChar (c : Char) : Bool :=
  c.isAlpha || c.isDigit || c = '_' ||
    (0xC0 ≤ c.toNat && c.toNat ≤ 0xFF && c.toNat ≠ 0xD7 && c.toNat ≠ 0xF7) ||
    (0x100 ≤ c.toNat && c.toNat ≤ 0x17F)

/-- Longest whitespace suffix removed. -/
def dropTrailWs (l : List Char) : List Char := (l.reverse.dropWhile pyWs).reverse

/-- Python `str.strip()` on a character list. -/
def pyStripL (l : List Char) : List Char := dropTrailWs (l.dropWhile pyWs)

/-- Python `str.strip()`. -/
def pyStrip (s : String) : String := String.mk (pyStripL s.data)

/-- Python `str.strip(chars)` on a character list. -/
def stripCharsL (cset : List Char) (l : List Char) : List Char :=
  ((l.dropWhile (· ∈ cset)).reverse.dropWhile (· ∈ cset)).reverse

/-- Python `str.strip(chars)`. -/
def pyStripChars (s : String) (cset : List Char) : String := String.mk (stripCharsL cset s.data)

/-- Python `str.lower()`. -/
def lowerStr (s : String) : String := String.mk (s.data.map pyLower)

/-- Pattern syntax covering exactly the regex features the repository uses. -/
inductive Pat where
  | nope : Pat
  | eps : Pat
  | cls (f : Char → Bool) : Pat
  | lit (cs : List Char) : Pat
  | star (f : Char → Bool) : Pat
  | opt (p : Pat) : Pat
  | alt2 (p q : Pat) : Pat
  | seq2 (p q : Pat) : Pat
  | grp (n : Nat) (p : Pat) : Pat
  | wb : Pat
  | eos : Pat

/-- Captures as (group, start-suffix-length, end-suffix-length). -/
abbrev Caps := List (Nat × Nat × Nat)

/-- Suffixes of `s` after consuming an initial run of `f`-characters, longest
consumed run first — the greedy order a Python `*` explores on a
single-character class. -/
def greedySuffixes (f : Char → Bool) : List Char → List (List Char)
  | [] => [[]]
  | c :: cs => if f c then greedySuffixes f cs ++ [c :: cs] else [c :: cs]

/-- Remainder of `s` after a literal `p`, when `p` is a prefix of `s`. -/
def litRest : List Char → List Char → Option (List Char)
  | [], s => some s
  | _ :: _, [] => none
  | p :: ps, c :: cs => if c = p then litRest ps cs else none

/-- Backtracking matcher in continuation style, mirroring Python `re`
backtracking order.  `full` is the whole subject (needed for word
boundaries), `s` the current suffix, `k` the continuation receiving the
remaining suffix and the captures. -/
def mtch (full : List Char) : Pat → List Char → Caps →
    (List Char → Caps → Option (Nat × Caps)) → Option (Nat × Caps)
  | .nope, _, _, _ => none
  | .eps, s, caps, k => k s caps
  | .cls f, s, caps, k =>
    match s with
    | [] => none
    | c :: cs => if f c then k cs caps else none
  | .lit p, s, caps, k =>
    match litRest p s with
    | some s' => k s' caps
    | none => none
  | .star f, s, caps, k => (greedySuffixes f s).findSome? (fun s' => k s' caps)
  | .opt p, s, caps, k => (mtch full p s caps k).orElse (fun _ => k s caps)
  | .alt2 p q, s, caps, k => (mtch full p s caps k).orElse (fun _ => mtch full q s caps k)
  | .seq2 p q, s, caps, k => mtch full p s caps (fun s' caps' => mtch full q s' caps' k)
  | .grp n p, s, caps, k => mtch full p s caps (fun s' caps' => k s' ((n, s.length, s'.length) :: caps'))
  | .wb, s, caps, k =>
    let pos := full.length - s.length
    let prevW := if pos = 0 then false else pyWordChar (full.getD (pos - 1) ' ')
    let nextW := match s with | [] => false | c :: _ => pyWordChar c
    if prevW ≠ nextW then k s caps else none
  | .eos, s, caps, k => if s = [] ∨ s = ['\n'] then k s caps else none

/-- Anchored match attempt at position `pos`; returns the end as a suffix
length together with the captures. -/
def matchAt (p : Pat) (full : List Char) (pos : Nat) : Option (Nat × Caps) :=
  mtch full p (full.drop pos) [] (fun rest caps => some (rest.length, caps))

/-- Leftmost match at or after `start` (Python `re.search`): returns
(start position, end suffix length, captures). -/
def searchIdx (p : Pat) (full : List Char) (start : Nat) : Option (Nat × Nat × Caps) :=
  (List.range (full.length + 1 - start)).findSome? fun d =>
    match matchAt p full (start + d) with
    | some (endLen, caps) => some (start + d, endLen, caps)
    | none => none

/-- Text of capture group `n`, sliced out of `src` via the stored suffix
lengths. -/
def groupSlice (src : List Char) (caps : Caps) (n : Nat) : Option (List Char) :=
  match caps.find? (fun t => t.1 = n) with
  | some (_, sl, el) => some ((src.drop (src.length - sl)).take (sl - el))
  | none => none

/-- Python `re.finditer`: non-overlapping matches scanned left to right. -/
def findIterFrom (p : Pat) (full : List Char) : Nat → Nat → List Caps
  | 0, _ => []
  | fuel + 1, pos =>
    match searchIdx p full pos with
    | none => []
    | some (s, endLen, caps) =>
      let e := full.length - endLen
      caps :: findIterFrom p full fuel (if s < e then e else s + 1)

/-- Captures of every match of `p` in `full`, in scan order. -/
def findIterAll (p : Pat) (full : List Char) : List Caps :=
  findIterFrom p full (full.length + 1) 0

/-- Python `re.sub(p, ",", ·)` for the case-insensitive connective pattern:
matching runs on the lowercased copy `low`, replaced text is rebuilt from
`orig`. -/
def subCommaFrom (p : Pat) (orig low : List Char) : Nat → Nat → List Char
  | 0, pos => orig.drop pos
  | fuel + 1, pos =>
    match searchIdx p low pos with
    | none => orig.drop pos
    | some (s, endLen, _) =>
      let e := low.length - endLen
      if s < e then
        (orig.drop pos).take (s - pos) ++ ',' :: subCommaFrom p orig low fuel e
      else orig.drop pos

/-- Helper for termination: `dropWhile` never lengthens a list. -/
theorem lenDropWhileLe {α : Type} (p : α → Bool) (l : List α) :
    (l.dropWhile p).length ≤ l.length := by
  induction l with
  | nil => simp [List.dropWhile]
  | cons c cs ih =>
    by_cases h : p c <;> simp [List.dropWhile, h]
    exact Nat.le_succ_of_le ih

/-- Python `re.split` on maximal runs of `f`-characters (used for
`[\n\r]+`); empty pieces at the ends are kept, as `re.split` keeps them.
The fuel argument (always instantiated to more than the list length, each
call consuming at least one character) keeps the recursion structural, so
that the kernel can evaluate concrete instances. -/
def splitRunsF (f : Char → Bool) : Nat → List Char → List Char → List (List Char)
  | _, [], acc => [acc.reverse]
  | 0, l, acc => [acc.reverse ++ l]
  | fuel + 1, c :: cs, acc =>
    if f c then acc.reverse :: splitRunsF f fuel (cs.dropWhile f) []
    else splitRunsF f fuel cs (c :: acc)

/-- Python `re.split(r"[\n\r]+", ·)` and friends. -/
def splitRuns (f : Char → Bool) (l : List Char) : List (List Char) :=
  splitRunsF f (l.length + 1) l []

/-- Newline class `[\n\r]`. -/
def nlChar (c : Char) : Bool := c = '\n' || c = '\r'

/-- Python `re.split(r"\s*[\n\r]+\s*", ·)`: the separators are exactly the
maximal whitespace runs containing at least one newline (fuel-indexed as
above). -/
def splitNlF : Nat → List Char → List Char → List (List Char)
  | _, [], acc => [acc.reverse]
  | 0, l, acc => [acc.reverse ++ l]
  | fuel + 1, c :: cs, acc =>
    if pyWs c then
      let run := (c :: cs).takeWhile pyWs
      let rest := (c :: cs).dropWhile pyWs
      if run.any nlChar then acc.reverse :: splitNlF fuel rest []
      else splitNlF fuel rest (run.reverse ++ acc)
    else splitNlF fuel cs (c :: acc)

/-- Wrapper for `splitNlF` with sufficient fuel. -/
def splitNl (l : List Char) : List (List Char) := splitNlF (l.length + 1) l []

/-- Sentence-ending characters `[.!?]`. -/
def sentEndChar (c : Char) : Bool := c = '.' || c = '!' || c = '?'

/-- Sentence-start lookahead class `[A-ZÀÂÄÇÉÈÊËÎÏÔÖÙÛÜŸ0-9]`. -/
def sentStartChar (c : Char) : Bool :=
  ('A' ≤ c && c ≤ 'Z') || c.isDigit ||
    c ∈ ['À', 'Â', 'Ä', 'Ç', 'É', 'È', 'Ê', 'Ë', 'Î', 'Ï', 'Ô', 'Ö', 'Ù', 'Û', 'Ü', 'Ÿ']

/-- Lookbehind state: does the previously consumed character end a sentence? -/
def prevSentEnd : Option Char → Bool
  | some p => sentEndChar p
  | none => false

/-- Splitting on `(?<=[\.\!\?])\s+(?=[A-Z…0-9])`: a maximal whitespace run
preceded by a sentence-ending character and followed by a sentence-start
character separates two pieces (fuel-indexed as above). -/
def splitSentF : Nat → List Char → Option Char → List Char → List (List Char)
  | _, [], _, acc => [acc.reverse]
  | 0, l, _, acc => [acc.reverse ++ l]
  | fuel + 1, c :: cs, prev, acc =>
    if pyWs c && prevSentEnd prev then
      match (c :: cs).dropWhile pyWs with
      | [] => splitSentF fuel cs (some c) (c :: acc)
      | d :: ds =>
        if sentStartChar d then acc.reverse :: splitSentF fuel (d :: ds) none []
        else splitSentF fuel cs (some c) (c :: acc)
    else splitSentF fuel cs (some c) (c :: acc)

/-- Wrapper for `splitSentF` with sufficient fuel. -/
def splitSent (l : List Char) : List (List Char) := splitSentF (l.length + 1) l none []

/-- Python `re.sub(r"#\w+", "", ·)` (fuel-indexed as above). -/
def removeHashtagsF : Nat → List Char → List Char
  | _, [] => []
  | 0, l => l
  | fuel + 1, c :: cs =>
    if c = '#' then
      match cs with
      | d :: ds =>
        if pyWordChar d then removeHashtagsF fuel (ds.dropWhile pyWordChar)
        else '#' :: removeHashtagsF fuel (d :: ds)
      | [] => ['#']
    else c :: removeHashtagsF fuel cs

/-- Wrapper for `removeHashtagsF` with sufficient fuel. -/
def removeHashtags (l : List Char) : List Char := removeHashtagsF (l.length + 1) l

/-- Python `re.sub`, collapsing each maximal run of `f`-characters to the
single character `r` (used for `\s+` → a space and `,+` → a comma);
fuel-indexed as above. -/
def collapseRunsF (f : Char → Bool) (r : Char) : Nat → List Char → List Char
  | _, [] => []
  | 0, l => l
  | fuel + 1, c :: cs =>
    if f c then r :: collapseRunsF f r fuel (cs.dropWhile f)
    else c :: collapseRunsF f r fuel cs

/-- Wrapper for `collapseRunsF` with sufficient fuel. -/
def collapseRuns (f : Char → Bool) (r : Char) (l : List Char) : List Char :=
  collapseRunsF f r (l.length + 1) l

/-- Python `str.replace` (all non-overlapping occurrences, left to right);
every caller passes a non-empty `pat`; fuel-indexed as above. -/
def replaceAllF (pat repl : List Char) : Nat → List Char → List Char
  | _, [] => []
  | 0, l => l
  | fuel + 1, c :: cs =>
    if pat ≠ [] ∧ pat.isPrefixOf (c :: cs) then
      repl ++ replaceAllF pat repl fuel ((c :: cs).drop pat.length)
    else c :: replaceAllF pat repl fuel cs

/-- Wrapper for `replaceAllF` with sufficient fuel. -/
def replaceAll (pat repl l : List Char) : List Char := replaceAllF pat repl (l.length + 1) l

/-- Python `str.split(sep)` for a one-character separator: every occurrence
separates; empty pieces are kept. -/
def splitCharAux (sep : Char) : List Char → List Char → List (List Char)
  | [], acc => [acc.reverse]
  | c :: cs, acc =>
    if c = sep then acc.reverse :: splitCharAux sep cs []
    else splitCharAux sep cs (c :: acc)

/-- Part of the list after the first occurrence of `sep`
(Python `s.split(sep, 1)[1]`; callers guard on containment). -/
def afterFirst (sep : Char) : List Char → List Char
  | [] => []
  | c :: cs => if c = sep then cs else afterFirst sep cs

/-- Python `re.split(r"[\(\[]", ·)[0]`. -/
def takeUntilBracket (l : List Char) : List Char :=
  l.takeWhile (fun c => !(c = '(' || c = '['))

/-- Numeric value of a digit run (arguments are always `\d+` captures). -/
def digitsToNat (l : List Char) : Nat := l.foldl (fun a c => 10 * a + (c.toNat - 48)) 0

/-- Python `re.sub(r"[.,;:]+$", "", ·)`: trailing punctuation run removed. -/
def stripTrailPunct (l : List Char) : List Char :=
  (l.reverse.dropWhile (fun c => c = '.' || c = ',' || c = ';' || c = ':')).reverse

/-- Maximal runs of an `f`-character class (Python `re.findall` of
`[class]+`); fuel-indexed as above. -/
def classRunsF (f : Char → Bool) : Nat → List Char → List (List Char)
  | _, [] => []
  | 0, _ => []
  | fuel + 1, c :: cs =>
    if f c then ((c :: cs).takeWhile f) :: classRunsF f fuel (cs.dropWhile f)
    else classRunsF f fuel cs

/-- Wrapper for `classRunsF` with sufficient fuel. -/
def classRuns (f : Char → Bool) (l : List Char) : List (List Char) :=
  classRunsF f (l.length + 1) l

/-- Lowercase-letter class `[a-zà-ÿ]` of the title miner. -/
def lowAlphaChar (c : Char) : Bool := ('a' ≤ c && c ≤ 'z') || (0xE0 ≤ c.toNat && c.toNat ≤ 0xFF)

/-- ASCII digit class `\d`. -/
def isDigitC (c : Char) : Bool := c.isDigit

/-- Pattern `\d+`. -/
def digitsPlus : Pat := .seq2 (.cls isDigitC) (.star isDigitC)

/-- Bullet markers `-`, `*`, `•` of the two list regexes. -/
def bulletChar (c : Char) : Bool := c = '-' || c = '*' || c = '•'

/-- Decimal separator class `[.,]`. -/
def isDotComma (c : Char) : Bool := c = '.' || c = ','

/-- Unicode vulgar fraction glyphs of `FRACTION_RE`. -/
def vulgarChar (c : Char) : Bool := c ∈ ['½', '¼', '¾', '⅓', '⅔', '⅛', '⅜', '⅝', '⅞']

/-- Class of `.` without `re.DOTALL`: any character but a newline. -/
def notNl (c : Char) : Bool := c ≠ '\n'

/-- First alternative of `FRACTION_RE`: `\d+(?:[.,]\d+)?`. -/
def fracDec : Pat := .seq2 digitsPlus (.opt (.seq2 (.cls isDotComma) digitsPlus))

/-- Second alternative of `FRACTION_RE`: `\d+\s*/\s*\d+`. -/
def fracSlash : Pat :=
  .seq2 digitsPlus (.seq2 (.star pyWs) (.seq2 (.cls (· = '/')) (.seq2 (.star pyWs) digitsPlus)))

/-- Group 1 of `INGREDIENT_LINE_RE`: the quantity token (`FRACTION_RE`). -/
def fracGrp : Pat := .grp 1 (.alt2 fracDec (.alt2 fracSlash (.cls vulgarChar)))

/-- Source `FRENCH_UNITS`. -/
def FRENCH_UNITS : List String :=
  ["g", "gr", "gramme", "grammes",
   "kg", "kilogramme", "kilogrammes",
   "ml", "millilitre", "millilitres",
   "cl", "dl", "l", "litre", "litres",
   "càs", "cas", "c. à s.", "c.à s.", "cuillère à soupe", "cuillères à soupe",
   "càc", "cac", "c. à c.", "c.à c.", "cuillère à café", "cuillères à café",
   "pincée", "pincées", "tranche", "tranches", "sachet", "sachets",
   "boîte", "boites", "boîtes", "tasse", "tasses"]

/-- Source `EN_UNITS`. -/
def EN_UNITS : List String :=
  ["g", "kg", "ml", "l", "cup", "cups", "tsp", "tbsp", "teaspoon", "teaspoons",
   "tablespoon", "tablespoons", "pinch", "pinches", "slice", "slices", "packet",
   "packets", "can", "cans", "ounce", "ounces", "oz", "lb", "lbs"]

/-- Source `UNITS`: the lowercased vocabulary as a duplicate-free list. -/
def unitsDedup : List String := ((FRENCH_UNITS ++ EN_UNITS).map lowerStr).dedup

/-- Insertion by non-increasing length. -/
def insertByLen (u : String) : List String → List String
  | [] => [u]
  | v :: vs => if v.length < u.length then u :: v :: vs else v :: insertByLen u vs

/-- `UNIT_RE`'s alternation order: units sorted by decreasing length.  The
relative order among units of equal length cannot influence a match:
two distinct equal-length literals never match at the same position. -/
def unitsSorted : List String := unitsDedup.foldr insertByLen []

/-- Alternation of a pattern list, first alternative preferred. -/
def altL (ps : List Pat) : Pat := ps.foldr .alt2 .nope

/-- `UNIT_RE` as a pattern. -/
def unitAlt : Pat := altL (unitsSorted.map (fun u => .lit u.data))

/-- Item group `(.+)$` of `INGREDIENT_LINE_RE`. -/
def itemGrp : Pat := .seq2 (.grp 3 (.seq2 (.cls notNl) (.star notNl))) .eos

/-- Optional unit `(?:(UNIT_RE)\b)?`. -/
def unitOptPat : Pat := .opt (.seq2 (.grp 2 unitAlt) .wb)

/-- Tail of `INGREDIENT_LINE_RE` after the quantity group:
`\s*(?:(UNIT_RE)\b)?\s*(.+)$`. -/
def ingTail : Pat := .seq2 (.star pyWs) (.seq2 unitOptPat (.seq2 (.star pyWs) itemGrp))

/-- `INGREDIENT_LINE_RE`:
`^\s*(?:-|•|\*)?\s*(FRACTION_RE)\s*(?:(UNIT_RE)\b)?\s*(.+)$` with
`re.IGNORECASE`, which this embedding realizes by matching the lowercased
subject. -/
def ingPat : Pat :=
  .seq2 (.star pyWs) (.seq2 (.opt (.cls bulletChar)) (.seq2 (.star pyWs) (.seq2 fracGrp ingTail)))

/-- `LIST_PREFIX_RE`: `^\s*(?:[-\*•]|\d+[\).])\s*`. -/
def listMarkerPat : Pat :=
  .seq2 (.star pyWs)
    (.seq2 (.alt2 (.cls bulletChar) (.seq2 digitsPlus (.cls (fun c => c = ')' || c = '.'))))
      (.star pyWs))

/-- First member of `TIME_PATTERNS`: `(?:(\d+)\s*h)?\s*(\d+)?\s*(?:min|mn|minutes?)`. -/
def timePat1 : Pat :=
  .seq2 (.opt (.seq2 (.grp 1 digitsPlus) (.seq2 (.star pyWs) (.lit ['h']))))
    (.seq2 (.star pyWs) (.seq2 (.opt (.grp 2 digitsPlus))
      (.seq2 (.star pyWs)
        (.alt2 (.lit "min".data) (.alt2 (.lit "mn".data)
          (.seq2 (.lit "minute".data) (.opt (.lit ['s']))))))))

/-- Second member of `TIME_PATTERNS`: `(\d+)\s*h(?:eurs?)?`. -/
def timePat2 : Pat :=
  .seq2 (.grp 1 digitsPlus)
    (.seq2 (.star pyWs) (.seq2 (.lit ['h']) (.opt (.seq2 (.lit "eur".data) (.opt (.lit ['s']))))))

/-- Separator-or-whitespace class `[:\-\|\s]` of the first keyword pattern. -/
def sepOrWs (c : Char) : Bool := c = ':' || c = '-' || c = '|' || pyWs c

/-- Trailing capture `(.+)` of the keyword patterns. -/
def restGrp1 : Pat := .grp 1 (.seq2 (.cls notNl) (.star notNl))

/-- Keyword pattern `(?i)ingr[ée]dients?[:\-\|\s]+(.+)` (matched on the
lowercased subject). -/
def kw1Pat : Pat :=
  .seq2 (.lit "ingr".data) (.seq2 (.cls (fun c => c = 'e' || c = 'é')) (.seq2 (.lit "dient".data)
    (.seq2 (.opt (.lit ['s'])) (.seq2 (.seq2 (.cls sepOrWs) (.star sepOrWs)) restGrp1))))

/-- Keyword pattern `(?i)(?:avec|with)\s+(.+)` (matched on the lowercased
subject). -/
def kw2Pat : Pat :=
  .seq2 (.alt2 (.lit "avec".data) (.lit "with".data))
    (.seq2 (.seq2 (.cls pyWs) (.star pyWs)) restGrp1)

/-- Connective pattern `(?i)\b(et|and|avec|with)\b` (matched on the
lowercased subject). -/
def connPat : Pat :=
  .seq2 .wb (.seq2 (.grp 1 (altL [.lit "et".data, .lit "and".data, .lit "avec".data, .lit "with".data])) .wb)

/-- Result of `INGREDIENT_LINE_RE.match(s)`: the groups
(quantity, optional unit, item).  The `re.IGNORECASE` flag is realized by
matching the lowercased subject; group texts are sliced out of the
original subject by position. -/
def ingredientLineMatch (s : String) : Option (String × Option String × String) :=
  match matchAt ingPat (s.data.map pyLower) 0 with
  | none => none
  | some (_, caps) =>
    some (String.mk ((groupSlice s.data caps 1).getD []),
      (groupSlice s.data caps 2).map String.mk,
      String.mk ((groupSlice s.data caps 3).getD []))

/-- Truthiness of `INGREDIENT_LINE_RE.match(s)` (what `tidy_recipe_lists`
uses). -/
def ingLineMatches (s : String) : Bool := (matchAt ingPat (s.data.map pyLower) 0).isSome

/-- Source `split_sentences`. -/
def splitSentences (text0 : String) : List String :=
  let text := String.mk (replaceAll ['\\', 'n'] ['\n'] text0.data)
  let strippedL := pyStripL text.data
  let parts0 := splitSent strippedL
  let parts := if parts0.length = 1 then splitNl strippedL else parts0
  parts.foldr (fun part acc =>
    let p := pyStripL part
    if p = [] then acc
    else (splitNl p).foldr (fun sub acc2 =>
      let q := pyStripL sub
      if q = [] then acc2 else String.mk q :: acc2) acc) []

/-- Line splitting of `guess_ingredients_and_steps`:
`[l.strip() for l in re.split(r"[\n\r]+", transcript) if l.strip()]`. -/
def linesOf (transcript : String) : List String :=
  ((splitRuns nlChar transcript.data).map (fun l => pyStrip (String.mk l))).filter (fun l => l ≠ "")

/-- Per-line classification of `guess_ingredients_and_steps`: a matching
line is rendered to `"qty unit item"` / `"qty item"`. -/
def lineToCandidate (l : String) : Option String :=
  match ingredientLineMatch l with
  | none => none
  | some (qty0, unit0, item0) =>
    let qty := pyStrip qty0
    let unitS := pyStrip (unit0.getD "")
    let item1 := pyStrip item0
    let item := String.mk (stripTrailPunct item1.data)
    some (if unitS ≠ "" then pyStrip (qty ++ " " ++ unitS ++ " " ++ item)
      else pyStrip (qty ++ " " ++ item))

/-- Loop of `guess_ingredients_and_steps`: candidates and non-matching
lines, in encounter order. -/
def guessLoop : List String → List String × List String
  | [] => ([], [])
  | l :: rest =>
    let r := guessLoop rest
    match lineToCandidate l with
    | some c => (c :: r.1, r.2)
    | none => (r.1, l :: r.2)

/-- Source `guess_ingredients_and_steps`. -/
def guessIngredientsAndSteps (transcript : String) : List String × List String :=
  let lines := linesOf transcript
  let cands := (guessLoop lines).1
  let others := (guessLoop lines).2
  let steps0 := splitSentences (String.intercalate "\n" others)
  (cands, steps0.filter (fun s => s.length > 3))

/-- Source `normalize_title`. -/
def normalizeTitle (raw : String) : String :=
  let t := pyStripL raw.data
  let t := removeHashtags t
  let t := collapseRuns pyWs ' ' t
  let t := stripCharsL [' ', '-', '—', '|', '·', '•'] t
  if t = [] then "Untitled Recipe" else String.mk t

/-- Source `RecipeContent` (recipe_models.py). -/
structure RecipeContent where
  title : String
  ingredients : List String
  steps : List String
  prep_minutes : Option Int
deriving DecidableEq, Repr

/-- Source `combine_title_transcript`. -/
def combineTitleTranscript (titleHint transcript : String) : String :=
  let parts := (if titleHint ≠ "" then [pyStrip titleHint] else []) ++
    (if transcript ≠ "" then [pyStrip transcript] else [])
  String.intercalate "\n\n" (parts.filter (fun p => p ≠ ""))

/-- Source `TITLE_STOPWORDS_WORDS`. -/
def TITLE_STOPWORDS_WORDS : List String :=
  ["recette", "recipe", "tiktok", "facile", "easy", "rapide", "quick",
   "pour", "sans", "astuce", "tips", "comment", "best"]

/-- Source `TITLE_STOPWORDS_PHRASES`. -/
def TITLE_STOPWORDS_PHRASES : List String := ["how to", "easy recipe"]

/-- Contiguous-sublist (substring) test, Python `phrase in lowered`. -/
def subListIn (pat l : List Char) : Bool :=
  (List.range (l.length + 1)).any (fun i => pat.isPrefixOf (l.drop i))

/-- Fragment filter loop of `extract_ingredients_from_title`. -/
def mineLoop : List String → List String → List String
  | [], _ => []
  | part :: rest, seen =>
    if part = "" then mineLoop rest seen
    else
      let lowered := lowerStr part
      if lowered ∈ seen then mineLoop rest seen
      else if (classRuns lowAlphaChar lowered.data).any
          (fun w => String.mk w ∈ TITLE_STOPWORDS_WORDS) then mineLoop rest seen
      else if TITLE_STOPWORDS_PHRASES.any (fun ph => subListIn ph.data lowered.data) then
        mineLoop rest seen
      else if !(lowered.data.any lowAlphaChar) then mineLoop rest seen
      else part :: mineLoop rest (lowered :: seen)

/-- Separator fallback of the title miner: the text after the first
occurrence of the first listed separator present anywhere. -/
def sepFallback (cleaned : List Char) : List Char :=
  if cleaned.contains ':' then pyStripL (afterFirst ':' cleaned)
  else if cleaned.contains '-' then pyStripL (afterFirst '-' cleaned)
  else if cleaned.contains '–' then pyStripL (afterFirst '–' cleaned)
  else if cleaned.contains '—' then pyStripL (afterFirst '—' cleaned)
  else if cleaned.contains '|' then pyStripL (afterFirst '|' cleaned)
  else cleaned

/-- Python `re.search` returning group 1, matching on the lowercased
subject (the `(?i)` flag) and slicing from the original. -/
def searchGroup1 (p : Pat) (s : List Char) : Option (List Char) :=
  match searchIdx p (s.map pyLower) 0 with
  | none => none
  | some (_, _, caps) => groupSlice s caps 1

/-- Source `extract_ingredients_from_title`. -/
def extractIngredientsFromTitle (titleHint : String) : List String :=
  if titleHint = "" then []
  else
    let cleaned := collapseRuns pyWs ' ' (pyStripL (removeHashtags titleHint.data))
    if cleaned = [] then []
    else
      let segment :=
        match searchGroup1 kw1Pat cleaned with
        | some seg => seg
        | none =>
          match searchGroup1 kw2Pat cleaned with
          | some seg => seg
          | none => sepFallback cleaned
      let segment := pyStripL (takeUntilBracket segment)
      if segment = [] then []
      else
        let normalized := subCommaFrom connPat segment (segment.map pyLower) (segment.length + 1) 0
        let normalized := replaceAll " - ".data [','] normalized
        let normalized := replaceAll " | ".data [','] normalized
        let normalized := collapseRuns (fun c => c = ',') ',' normalized
        let parts := (splitCharAux ',' normalized []).map
          (fun p => String.mk (stripCharsL [' ', '.', '!', '?', Char.ofNat 39, '"'] p))
        mineLoop parts []

/-- Append loop of `enrich_with_title_ingredients`: extras whose lowercase
is not yet present are appended in mined order. -/
def appendExtras (ings : List String) (seenLow : List String) : List String → List String
  | [] => ings
  | e :: rest =>
    let low := lowerStr e
    if low ∈ seenLow then appendExtras ings seenLow rest
    else appendExtras (ings ++ [e]) (low :: seenLow) rest

/-- Source `enrich_with_title_ingredients` (a functional rendering of the
in-place mutation of `recipe.ingredients`). -/
def enrichWithTitleIngredients (r : RecipeContent) (titleHint : String) : RecipeContent :=
  let extras := extractIngredientsFromTitle titleHint
  if extras = [] then r
  else { r with ingredients := appendExtras r.ingredients (r.ingredients.map lowerStr) extras }

/-- Source `_strip_list_prefix`: the anchored `LIST_PREFIX_RE.sub` removes
at most the single match at position 0, then the result is stripped. -/
def stripListMarker (s : String) : String :=
  match matchAt listMarkerPat s.data 0 with
  | some (endLen, _) => pyStrip (String.mk (s.data.drop (s.data.length - endLen)))
  | none => pyStrip s

/-- Ingredient loop of `tidy_recipe_lists`; returns the kept list and the
`ing_seen` set (as a list of lowercased strings). -/
def tidyIngLoop : List String → List String → List String → List String × List String
  | [], kept, seen => (kept, seen)
  | ing :: rest, kept, seen =>
    if stripListMarker (pyStrip ing) = "" then tidyIngLoop rest kept seen
    else if lowerStr (stripListMarker (pyStrip ing)) ∈ seen then tidyIngLoop rest kept seen
    else
      tidyIngLoop rest (kept ++ [stripListMarker (pyStrip ing)])
        (seen ++ [lowerStr (stripListMarker (pyStrip ing))])

/-- Title-equivalent lowercased strings of `tidy_recipe_lists`. -/
def titleLowerSet (titleHint : Option String) : List String :=
  match titleHint with
  | none => []
  | some t =>
    if t = "" then []
    else
      let raw := lowerStr (pyStrip t)
      let nz := lowerStr (pyStrip (normalizeTitle t))
      (if raw = "" then [] else [raw]) ++ (if nz = "" then [] else [nz])

/-- Step loop of `tidy_recipe_lists`: state is (ingredients, ing_seen,
kept steps, step_seen). -/
def tidyStepLoop (tl : List String) :
    List String → List String → List String → List String → List String →
    List String × List String × List String × List String
  | [], ings, ingSeen, kept, stepSeen => (ings, ingSeen, kept, stepSeen)
  | st :: rest, ings, ingSeen, kept, stepSeen =>
    if stripListMarker (pyStrip st) = "" then tidyStepLoop tl rest ings ingSeen kept stepSeen
    else if lowerStr (stripListMarker (pyStrip st)) ∈ tl then
      tidyStepLoop tl rest ings ingSeen kept stepSeen
    else if lowerStr (stripListMarker (pyStrip st)) ∈ ingSeen then
      tidyStepLoop tl rest ings ingSeen kept stepSeen
    else if ingLineMatches (stripListMarker (pyStrip st)) then
      tidyStepLoop tl rest (ings ++ [stripListMarker (pyStrip st)])
        (ingSeen ++ [lowerStr (stripListMarker (pyStrip st))]) kept stepSeen
    else if lowerStr (stripListMarker (pyStrip st)) ∈ stepSeen then
      tidyStepLoop tl rest ings ingSeen kept stepSeen
    else
      tidyStepLoop tl rest ings ingSeen (kept ++ [stripListMarker (pyStrip st)])
        (stepSeen ++ [lowerStr (stripListMarker (pyStrip st))])

/-- Source `tidy_recipe_lists`. -/
def tidyRecipeLists (ingredients steps : List String) (titleHint : Option String) :
    List String × List String :=
  let p := tidyIngLoop ingredients [] []
  let q := tidyStepLoop (titleLowerSet titleHint) steps p.1 p.2 [] []
  (q.1, q.2.2.1)

/-- Source `heuristic_recipe`. -/
def heuristicRecipe (titleHint combined : String) : RecipeContent :=
  { title := normalizeTitle titleHint,
    ingredients := (guessIngredientsAndSteps combined).1,
    steps := (guessIngredientsAndSteps combined).2,
    prep_minutes := none }

/-- Minutes from one match of a `TIME_PATTERNS` member; `groupsCount` is
`pattern.groups`. -/
def matchMinutes (full : List Char) (groupsCount : Nat) (caps : Caps) : Int :=
  if 2 ≤ groupsCount then
    (match groupSlice full caps 1 with | some g => (digitsToNat g : Int) | none => 0) * 60 +
      (match groupSlice full caps 2 with | some g => (digitsToNat g : Int) | none => 0)
  else
    match groupSlice full caps 1 with
    | some g => (digitsToNat g : Int) * 60
    | none => 0

/-- First match whose total is strictly positive, in scan order. -/
def firstPositive (full : List Char) (groupsCount : Nat) : List Caps → Option Int
  | [] => none
  | caps :: rest =>
    let total := matchMinutes full groupsCount caps
    if 0 < total then some total else firstPositive full groupsCount rest

/-- Pattern half of `estimate_prep_time`: the loop over `TIME_PATTERNS`
returning on the first strictly positive total. -/
def timePatternMinutes (normalized : List Char) : Option Int :=
  match firstPositive normalized 2 (findIterAll timePat1 normalized) with
  | some t => some t
  | none => firstPositive normalized 1 (findIterAll timePat2 normalized)

/-- Source `estimate_prep_time`. -/
def estimatePrepTime (text : String) (fallbackSteps : List String) : Option Int :=
  match timePatternMinutes (lowerStr text).data with
  | some t => some t
  | none =>
    if fallbackSteps ≠ [] then some ((max 10 (6 * fallbackSteps.length) : Nat) : Int)
    else none

/-- Source `ensure_prep_minutes`. -/
def ensurePrepMinutes (r : RecipeContent) (combined : String) : RecipeContent :=
  match r.prep_minutes with
  | some _ => r
  | none => { r with prep_minutes := estimatePrepTime combined r.steps }

/-- JSON values (results of `json.loads`).  Numbers are modelled as
integers: the standard-library parser is not repository code, and the
spec describes the oracle payload's only number, `prep_time_minutes`, as
whole minutes. -/
inductive Json where
  | null : Json
  | bool (b : Bool) : Json
  | num (n : Int) : Json
  | str (s : String) : Json
  | arr (xs : List Json) : Json
  | obj (kvs : List (String × Json)) : Json

/-- JSON inter-token whitespace. -/
def jsonWs (l : List Char) : List Char :=
  l.dropWhile (fun c => c = ' ' || c = '\t' || c = '\n' || c = '\r')

/-- Hexadecimal digit value. -/
def hexVal (c : Char) : Option Nat :=
  if '0' ≤ c && c ≤ '9' then some (c.toNat - 48)
  else if 'a' ≤ c && c ≤ 'f' then some (c.toNat - 87)
  else if 'A' ≤ c && c ≤ 'F' then some (c.toNat - 55)
  else none

/-- JSON string body after the opening quote (fuel-indexed for structural
recursion, as above). -/
def parseJStrF : Nat → List Char → List Char → Option (String × List Char)
  | _, _, [] => none
  | 0, _, _ => none
  | fuel + 1, acc, c :: cs =>
    if c = '"' then some (String.mk acc.reverse, cs)
    else if c = '\\' then
      match cs with
      | [] => none
      | e :: es =>
        if e = '"' then parseJStrF fuel ('"' :: acc) es
        else if e = '\\' then parseJStrF fuel ('\\' :: acc) es
        else if e = '/' then parseJStrF fuel ('/' :: acc) es
        else if e = 'b' then parseJStrF fuel (Char.ofNat 8 :: acc) es
        else if e = 'f' then parseJStrF fuel (Char.ofNat 12 :: acc) es
        else if e = 'n' then parseJStrF fuel ('\n' :: acc) es
        else if e = 'r' then parseJStrF fuel ('\r' :: acc) es
        else if e = 't' then parseJStrF fuel ('\t' :: acc) es
        else if e = 'u' then
          match es with
          | a :: b :: c2 :: d :: rest =>
            match hexVal a, hexVal b, hexVal c2, hexVal d with
            | some x, some y, some z, some w =>
              parseJStrF fuel (Char.ofNat (((x * 16 + y) * 16 + z) * 16 + w) :: acc) rest
            | _, _, _, _ => none
          | _ => none
        else none
    else if c.toNat < 32 then none
    else parseJStrF fuel (c :: acc) cs

/-- JSON string body with sufficient fuel. -/
def parseJStr (acc l : List Char) : Option (String × List Char) :=
  parseJStrF (l.length + 1) acc l

/-- JSON integer literal (`-?(0|[1-9][0-9]*)`, no fraction or exponent). -/
def parseJNum (l : List Char) : Option (Int × List Char) :=
  let p := match l with
    | '-' :: rest => (true, rest)
    | _ => (false, l)
  match p.2 with
  | [] => none
  | c :: cs =>
    if !c.isDigit then none
    else
      let digits := (c :: cs).takeWhile Char.isDigit
      let rest := (c :: cs).dropWhile Char.isDigit
      if c = '0' ∧ 1 < digits.length then none
      else
        let bad := match rest with
          | r :: _ => r = '.' || r = 'e' || r = 'E'
          | [] => false
        if bad then none
        else some ((if p.1 then -(digitsToNat digits : Int) else (digitsToNat digits : Int)), rest)

/-- Request selector of the JSON recursive descent: a value, the member
list of an object (after the opening brace), or the item list of an array
(after the opening bracket).  Merged into one fuel-indexed function so
that the recursion is structural on the fuel and kernel-evaluable. -/
inductive JReq where
  | val (l : List Char) : JReq
  | members (l : List Char) : JReq
  | items (l : List Char) : JReq

/-- Results of the three request kinds. -/
inductive JRes where
  | val (v : Json) (rest : List Char) : JRes
  | members (kvs : List (String × Json)) (rest : List Char) : JRes
  | items (xs : List Json) (rest : List Char) : JRes

/-- JSON recursive-descent parser (fuel-indexed). -/
def parseJ : Nat → JReq → Option JRes
  | 0, _ => none
  | fuel + 1, .val l =>
    match jsonWs l with
    | [] => none
    | c :: cs =>
      if c = '"' then (parseJStr [] cs).map (fun p => .val (Json.str p.1) p.2)
      else if c = Char.ofNat 123 then
        match jsonWs cs with
        | d :: ds =>
          if d = Char.ofNat 125 then some (.val (Json.obj []) ds)
          else
            match parseJ fuel (.members cs) with
            | some (.members kvs r) => some (.val (Json.obj kvs) r)
            | _ => none
        | [] => none
      else if c = '[' then
        match jsonWs cs with
        | d :: ds =>
          if d = ']' then some (.val (Json.arr []) ds)
          else
            match parseJ fuel (.items cs) with
            | some (.items xs r) => some (.val (Json.arr xs) r)
            | _ => none
        | [] => none
      else if c = 't' then (litRest "rue".data cs).map (fun r => .val (Json.bool true) r)
      else if c = 'f' then (litRest "alse".data cs).map (fun r => .val (Json.bool false) r)
      else if c = 'n' then (litRest "ull".data cs).map (fun r => .val Json.null r)
      else (parseJNum (c :: cs)).map (fun p => .val (Json.num p.1) p.2)
  | fuel + 1, .members l =>
    match jsonWs l with
    | '"' :: cs =>
      match parseJStr [] cs with
      | none => none
      | some (key, r1) =>
        match jsonWs r1 with
        | ':' :: r2 =>
          match parseJ fuel (.val r2) with
          | some (.val v r3) =>
            (match jsonWs r3 with
            | ',' :: r4 =>
              match parseJ fuel (.members r4) with
              | some (.members kvs r) => some (.members ((key, v) :: kvs) r)
              | _ => none
            | r :: r4 =>
              if r = Char.ofNat 125 then some (.members [(key, v)] r4) else none
            | [] => none)
          | _ => none
        | _ => none
    | _ => none
  | fuel + 1, .items l =>
    match parseJ fuel (.val l) with
    | some (.val v r1) =>
      (match jsonWs r1 with
      | ',' :: r2 =>
        match parseJ fuel (.items r2) with
        | some (.items xs r) => some (.items (v :: xs) r)
        | _ => none
      | ']' :: r2 => some (.items [v] r2)
      | _ => none)
    | _ => none

/-- Python `json.loads`: one JSON value followed only by whitespace. -/
def pyJsonParse (s : String) : Option Json :=
  match parseJ (2 * s.length + 8) (.val s.data) with
  | some (.val v rest) => if jsonWs rest = [] then some v else none
  | _ => none

/-- Slice matched by the greedy DOTALL regex of
`_extract_first_json_block`: from the first opening brace to the last
closing brace (when the latter is strictly after the former). -/
def braceSlice (l : List Char) : Option (List Char) :=
  match l.findIdx? (fun c => c = Char.ofNat 123) with
  | none => none
  | some i =>
    match l.reverse.findIdx? (fun c => c = Char.ofNat 125) with
    | none => none
    | some jr =>
      let j := l.length - 1 - jr
      if i < j then some ((l.drop i).take (j + 1 - i)) else none

/-- Source `_extract_first_json_block`. -/
def extractFirstJsonBlock (text : String) : Option Json :=
  match pyJsonParse text with
  | some v => some v
  | none =>
    match braceSlice text.data with
    | none => none
    | some blk => pyJsonParse (String.mk blk)

/-- Outcome of the network call in `gpt_structure`: either a failure before
a response body is obtained (raised exception, timeout, non-2xx status via
`raise_for_status`, malformed response envelope), or the message content
string of a successful call. -/
inductive OracleOutcome where
  | failure : OracleOutcome
  | response (content : String) : OracleOutcome

/-- Python truthiness of a JSON value. -/
def jsonTruthy : Json → Bool
  | .null => false
  | .bool b => b
  | .num n => n ≠ 0
  | .str s => s ≠ ""
  | .arr xs => !xs.isEmpty
  | .obj kvs => !kvs.isEmpty

/-- Python `dict.get` on a parsed JSON value (duplicate keys: the later
binding wins, as in `json.loads`); an error is the `AttributeError` raised
when the value is not a dict. -/
def jsonGet : Json → String → Except Unit (Option Json)
  | .obj kvs, k => .ok ((kvs.reverse.find? (fun p => p.1 = k)).map (fun p => p.2))
  | _, _ => .error ()

/-- Evaluation of `normalize_title(data.get("title") or title_hint)`'s
argument: a falsy field falls back to the hint; a truthy non-string raises
(`.strip()` on a non-string). -/
def titleSource (data : Json) (titleHint : String) : Except Unit String :=
  match jsonGet data "title" with
  | .error _ => .error ()
  | .ok none => .ok titleHint
  | .ok (some v) =>
    if jsonTruthy v then
      match v with
      | .str s => .ok s
      | _ => .error ()
    else .ok titleHint

/-- Python iteration over a JSON value where each element must support
`.strip()`: lists yield their elements (which must be strings), strings
yield their characters, dicts their keys; anything else raises. -/
def pyIterStrings : Json → Except Unit (List String)
  | .arr xs => xs.mapM (fun j => match j with | .str s => Except.ok s | _ => Except.error ())
  | .str s => .ok (s.data.map (fun c => String.mk [c]))
  | .obj kvs => .ok (kvs.map (fun p => p.1))
  | _ => .error ()

/-- List comprehension `[i.strip() for i in (data.get(key) or []) if i.strip()]`. -/
def strListField (data : Json) (key : String) : Except Unit (List String) :=
  match jsonGet data key with
  | .error _ => .error ()
  | .ok none => .ok []
  | .ok (some v) =>
    if jsonTruthy v then
      match pyIterStrings v with
      | .error _ => .error ()
      | .ok raw => .ok ((raw.map pyStrip).filter (fun s => s ≠ ""))
    else .ok []

/-- Python `int(x)` on a JSON field value, with `ValueError`/`TypeError`
collapsed to `none` (the source catches exactly those). -/
def pyToInt : Json → Option Int
  | .num n => some n
  | .bool b => some (if b then 1 else 0)
  | .str s =>
    let t := pyStripL s.data
    let p := match t with
      | '-' :: rest => (true, rest)
      | '+' :: rest => (false, rest)
      | _ => (false, t)
    if p.2 ≠ [] ∧ p.2.all Char.isDigit then
      some (if p.1 then -(digitsToNat p.2 : Int) else (digitsToNat p.2 : Int))
    else none
  | _ => none

/-- Coercion of `prep_time_minutes` in `gpt_structure`: an absent key stays
absent; a non-coercible or non-positive value becomes absent. -/
def prepFromData (data : Json) : Except Unit (Option Int) :=
  match jsonGet data "prep_time_minutes" with
  | .error _ => .error ()
  | .ok none => .ok none
  | .ok (some v) =>
    match pyToInt v with
    | none => .ok none
    | some n => .ok (if n ≤ 0 then none else some n)

/-- Sanitizing part of `gpt_structure` once `_extract_first_json_block`
returned; `none` is a raised exception caught by the enclosing `except`
(including `if not data: raise ValueError`). -/
def gptFromData (data : Json) (titleHint combined : String) : Option RecipeContent :=
  if !jsonTruthy data then none
  else
    match titleSource data titleHint with
    | .error _ => none
    | .ok t0 =>
      match strListField data "ingredients" with
      | .error _ => none
      | .ok ings0 =>
        match strListField data "steps" with
        | .error _ => none
        | .ok steps0 =>
          match prepFromData data with
          | .error _ => none
          | .ok prep =>
            let h := guessIngredientsAndSteps combined
            let r : RecipeContent :=
              { title := normalizeTitle t0,
                ingredients := (if ings0 = [] then h.1 else ings0),
                steps := (if steps0 = [] then h.2 else steps0),
                prep_minutes := prep }
            some r

/-- Source `gpt_structure`: the heuristic record on missing credentials,
and the heuristic record on any failure of the call or of the parsing /
sanitizing steps. -/
def gptStructure (apiKeyAvailable : Bool) (oracle : OracleOutcome)
    (transcript titleHint : String) : RecipeContent :=
  let combined := combineTitleTranscript titleHint transcript
  if !apiKeyAvailable then heuristicRecipe titleHint combined
  else
    match oracle with
    | .failure => heuristicRecipe titleHint combined
    | .response content =>
      match extractFirstJsonBlock (pyStrip content) with
      | none => heuristicRecipe titleHint combined
      | some data =>
        match gptFromData data titleHint combined with
        | none => heuristicRecipe titleHint combined
        | some r => r

/-- Branch of `RecipeExtractor._primary_recipe` / `build_recipe_content`
choosing the primary record and, without `use_gpt` but with credentials,
adopting the oracle's duration onto the heuristic record. -/
def primaryRecipe (useGpt apiKeyAvailable : Bool) (oracle : OracleOutcome)
    (transcript rawTitle combined : String) : RecipeContent :=
  if useGpt && apiKeyAvailable then gptStructure apiKeyAvailable oracle transcript rawTitle
  else
    let recipe := heuristicRecipe rawTitle combined
    if apiKeyAvailable then
      match (gptStructure apiKeyAvailable oracle transcript rawTitle).prep_minutes with
      | some m => { recipe with prep_minutes := some m }
      | none => recipe
    else recipe

/-- Common tail of the orchestrator after the primary record is chosen:
title-ingredient enrichment, tidy pass, prep-time estimation. -/
def pipelineTail (r : RecipeContent) (rawTitle combined : String) : RecipeContent :=
  let r1 := enrichWithTitleIngredients r rawTitle
  let q := tidyRecipeLists r1.ingredients r1.steps (some rawTitle)
  ensurePrepMinutes { r1 with ingredients := q.1, steps := q.2 } combined

/-- Source `RecipeExtractor.build` (equally `build_recipe_content`): the
orchestrator. -/
def buildRecipe (useGpt apiKeyAvailable : Bool) (oracle : OracleOutcome)
    (transcript rawTitle : String) : RecipeContent :=
  let combined := combineTitleTranscript rawTitle transcript
  pipelineTail (primaryRecipe useGpt apiKeyAvailable oracle transcript rawTitle combined)
    rawTitle combined

/-- Pure heuristic pipeline the spec compares against: heuristic record,
title-ingredient enrichment, tidy pass, prep-time estimation — no oracle
involvement anywhere. -/
def heuristicPipeline (transcript rawTitle : String) : RecipeContent :=
  let combined := combineTitleTranscript rawTitle transcript
  pipelineTail (heuristicRecipe rawTitle combined) rawTitle combined

/-! Helper lemmas. -/

theorem ensure_title (r : RecipeContent) (c : String) :
    (ensurePrepMinutes r c).title = r.title := by
  unfold ensurePrepMinutes; split <;> rfl

theorem ensure_ingredients (r : RecipeContent) (c : String) :
    (ensurePrepMinutes r c).ingredients = r.ingredients := by
  unfold ensurePrepMinutes; split <;> rfl

theorem ensure_steps (r : RecipeContent) (c : String) :
    (ensurePrepMinutes r c).steps = r.steps := by
  unfold ensurePrepMinutes; split <;> rfl

theorem enrich_title (r : RecipeContent) (th : String) :
    (enrichWithTitleIngredients r th).title = r.title := by
  unfold enrichWithTitleIngredients
  dsimp only
  split <;> rfl

theorem enrich_steps (r : RecipeContent) (th : String) :
    (enrichWithTitleIngredients r th).steps = r.steps := by
  unfold enrichWithTitleIngredients
  dsimp only
  split <;> rfl

theorem enrich_prep (r : RecipeContent) (th : String) :
    (enrichWithTitleIngredients r th).prep_minutes = r.prep_minutes := by
  unfold enrichWithTitleIngredients
  dsimp only
  split <;> rfl

/-- Setting `prep_minutes` first commutes with the enrichment pass, which
reads and writes only `ingredients`. -/
theorem enrich_of_prep (r : RecipeContent) (p : Option Int) (th : String) :
    enrichWithTitleIngredients { r with prep_minutes := p } th =
      { enrichWithTitleIngredients r th with prep_minutes := p } := by
  unfold enrichWithTitleIngredients
  dsimp only
  split <;> rfl

/-- The head surviving `dropWhile` fails the predicate. -/
theorem dropWhileConsHead {a : Type} (p : a → Bool) (l : List a) (b : a) (bs : List a)
    (h : l.dropWhile p = b :: bs) : p b = false := by
  induction l with
  | nil => simp [List.dropWhile] at h
  | cons x xs ih =>
    rw [List.dropWhile_cons] at h
    by_cases hx : p x
    · rw [if_pos hx] at h; exact ih h
    · rw [if_neg hx] at h
      injection h with h1 h2
      subst h1
      simpa using hx

/-- Python `str.strip` is idempotent. -/
theorem pyStripL_idem (l : List Char) : pyStripL (pyStripL l) = pyStripL l := by
  show pyStripL (List.rdropWhile pyWs (l.dropWhile pyWs)) = _
  have hmid : (List.rdropWhile pyWs (l.dropWhile pyWs)).dropWhile pyWs =
      List.rdropWhile pyWs (l.dropWhile pyWs) := by
    obtain ⟨t, ht⟩ := List.rdropWhile_prefix pyWs (l.dropWhile pyWs)
    cases hb : List.rdropWhile pyWs (l.dropWhile pyWs) with
    | nil => rfl
    | cons b bs =>
      have hA : l.dropWhile pyWs = b :: (bs ++ t) := by
        rw [← ht, hb]; rfl
      have hbh : pyWs b = false := dropWhileConsHead pyWs l b (bs ++ t) hA
      simp [List.dropWhile_cons, hbh]
  show List.rdropWhile pyWs ((List.rdropWhile pyWs (l.dropWhile pyWs)).dropWhile pyWs) = _
  rw [hmid]
  exact List.rdropWhile_idempotent pyWs _

/-- Python `str.strip` is idempotent (string form). -/
theorem pyStrip_idem (s : String) : pyStrip (pyStrip s) = pyStrip s := by
  show String.mk (pyStripL (String.mk (pyStripL s.data)).data) = _
  exact congrArg String.mk (pyStripL_idem s.data)

/-- The marker stripper always returns a `str.strip`-fixed string. -/
theorem stripListMarker_stripped (s : String) :
    pyStrip (stripListMarker s) = stripListMarker s := by
  unfold stripListMarker
  split <;> exact pyStrip_idem _

/-- Source `normalize_title` never returns the empty string. -/
theorem normalizeTitle_ne_empty (raw : String) : normalizeTitle raw ≠ "" := by
  unfold normalizeTitle
  dsimp only
  split
  · decide
  · rename_i h
    intro hc
    have : (String.mk (stripCharsL [' ', '-', '—', '|', '·', '•']
        (collapseRuns pyWs ' ' (removeHashtags (pyStripL raw.data))))).data = ("" : String).data :=
      congrArg String.data hc
    simp at this
    exact h this

/-- Every record produced by the sanitizing path carries a normalized
title. -/
theorem gptFromData_title (data : Json) (th cb : String) (r : RecipeContent)
    (h : gptFromData data th cb = some r) : ∃ s, r.title = normalizeTitle s := by
  unfold gptFromData at h
  split at h
  · exact absurd h (by simp)
  · split at h
    · exact absurd h (by simp)
    · rename_i t0 _
      split at h
      · exact absurd h (by simp)
      · split at h
        · exact absurd h (by simp)
        · split at h
          · exact absurd h (by simp)
          · refine ⟨t0, ?_⟩
            simp only [Option.some.injEq] at h
            rw [← h]

/-- The primary record's title is always some normalized string. -/
theorem gptStructure_title (a : Bool) (o : OracleOutcome) (t ti : String) :
    ∃ s, (gptStructure a o t ti).title = normalizeTitle s := by
  unfold gptStructure
  dsimp only
  split
  · exact ⟨ti, rfl⟩
  · split
    · exact ⟨ti, rfl⟩
    · rename_i c
      split
      · exact ⟨ti, rfl⟩
      · rename_i data _
        split
        · exact ⟨ti, rfl⟩
        · rename_i r hr
          exact gptFromData_title data ti _ r hr

/-- The primary-record selection also always yields a normalized title. -/
theorem primaryRecipe_title (g a : Bool) (o : OracleOutcome) (t ti cb : String) :
    ∃ s, (primaryRecipe g a o t ti cb).title = normalizeTitle s := by
  unfold primaryRecipe
  dsimp only
  split
  · exact gptStructure_title a o t ti
  · split
    · split
      · exact ⟨ti, rfl⟩
      · exact ⟨ti, rfl⟩
    · exact ⟨ti, rfl⟩

/-- C1.  For every pair of input strings (raw title, transcript), including
both empty, and every oracle configuration and outcome, the orchestrator's
`build` returns a record whose `title` is non-empty (the model is a total
function, so no exception is possible by construction; the title falls
back to the fixed placeholder "Untitled Recipe" exactly when normalization
yields the empty string). -/
theorem c1_build_title_nonempty (useGpt apiKey : Bool) (oracle : OracleOutcome)
    (transcript rawTitle : String) :
    (buildRecipe useGpt apiKey oracle transcript rawTitle).title ≠ "" := by
  have hb : (buildRecipe useGpt apiKey oracle transcript rawTitle).title =
      (primaryRecipe useGpt apiKey oracle transcript rawTitle
        (combineTitleTranscript rawTitle transcript)).title := by
    unfold buildRecipe pipelineTail
    dsimp only
    rw [ensure_title]
    exact enrich_title _ _
  rw [hb]
  obtain ⟨s, hs⟩ := primaryRecipe_title useGpt apiKey oracle transcript rawTitle
    (combineTitleTranscript rawTitle transcript)
  rw [hs]
  exact normalizeTitle_ne_empty s

/-- Setting only `prep_minutes` on the record entering the pipeline tail
leaves the tail's title, ingredients and steps unchanged. -/
theorem pipelineTail_of_prep (r : RecipeContent) (p : Option Int) (ti cb : String) :
    (pipelineTail { r with prep_minutes := p } ti cb).title = (pipelineTail r ti cb).title ∧
    (pipelineTail { r with prep_minutes := p } ti cb).ingredients =
      (pipelineTail r ti cb).ingredients ∧
    (pipelineTail { r with prep_minutes := p } ti cb).steps = (pipelineTail r ti cb).steps := by
  unfold pipelineTail
  dsimp only
  rw [enrich_of_prep]
  refine ⟨?_, ?_, ?_⟩
  · rw [ensure_title, ensure_title]
  · rw [ensure_ingredients, ensure_ingredients]
  · rw [ensure_steps, ensure_steps]

/-- C2 (amended).  When enrichment is not requested (`use_gpt` false) and no
oracle credentials are available, the orchestrator's output equals the pure
heuristic pipeline exactly.  When credentials are available, the oracle is
still consulted even without `use_gpt`, but only its positive
`prep_time_minutes` can be adopted: the output's title, ingredients and
steps still equal the heuristic pipeline's. -/
theorem c2_amended (oracle : OracleOutcome) (transcript rawTitle : String) :
    buildRecipe false false oracle transcript rawTitle = heuristicPipeline transcript rawTitle ∧
    (buildRecipe false true oracle transcript rawTitle).title =
      (heuristicPipeline transcript rawTitle).title ∧
    (buildRecipe false true oracle transcript rawTitle).ingredients =
      (heuristicPipeline transcript rawTitle).ingredients ∧
    (buildRecipe false true oracle transcript rawTitle).steps =
      (heuristicPipeline transcript rawTitle).steps := by
  refine ⟨rfl, ?_⟩
  cases hg : (gptStructure true oracle transcript rawTitle).prep_minutes with
  | none =>
    have hb : buildRecipe false true oracle transcript rawTitle =
        heuristicPipeline transcript rawTitle := by
      unfold buildRecipe primaryRecipe heuristicPipeline
      rw [hg]
      rfl
    rw [hb]
    exact ⟨rfl, rfl, rfl⟩
  | some m =>
    have hb : buildRecipe false true oracle transcript rawTitle =
        pipelineTail
          { heuristicRecipe rawTitle (combineTitleTranscript rawTitle transcript) with
            prep_minutes := some m }
          rawTitle (combineTitleTranscript rawTitle transcript) := by
      unfold buildRecipe primaryRecipe
      rw [hg]
      rfl
    rw [hb]
    exact pipelineTail_of_prep _ _ _ _

/-- C2 counterexample.  With enrichment not requested but credentials
available, the oracle is still consulted and its `prep_time_minutes`
changes the output: on empty title and transcript the heuristic pipeline
leaves the duration absent, while a response carrying
`prep_time_minutes: 5` makes the orchestrator return 5 — so the output is
not independent of credential availability. -/
theorem c2_counterexample :
    buildRecipe false true (.response "\x7b\"prep_time_minutes\": 5\x7d") "" "" ≠
      heuristicPipeline "" "" := by decide

/-- Failure of the enrichment call as the claim lists it: a raised
exception / timeout / non-2xx response (`OracleOutcome.failure`), or a
response body whose text contains no parseable JSON object. -/
def oracleFailed : OracleOutcome → Bool
  | .failure => true
  | .response c => (extractFirstJsonBlock (pyStrip c)).isNone

/-- C3.  Whenever enrichment is requested and available but the oracle call
raises, times out, returns a non-2xx response, or returns text containing
no parseable JSON object, the orchestrator's output equals the pure
heuristic pipeline's record for the same inputs.  The model is total and
consumes the single oracle outcome exactly once, so no exception
propagates and no retry occurs. -/
theorem c3_oracle_failure_fallback (oracle : OracleOutcome) (transcript rawTitle : String)
    (h : oracleFailed oracle = true) :
    buildRecipe true true oracle transcript rawTitle = heuristicPipeline transcript rawTitle := by
  cases oracle with
  | failure => rfl
  | response c =>
    have he : extractFirstJsonBlock (pyStrip c) = none := by
      simpa [oracleFailed, Option.isNone_iff_eq_none] using h
    unfold buildRecipe primaryRecipe gptStructure heuristicPipeline
    dsimp only
    rw [he]
    rfl

/-- C3 witness at a concrete failing outcome. -/
theorem c3_witness :
    oracleFailed (.response "alas, no recipe today") = true ∧
    buildRecipe true true (.response "alas, no recipe today") "" "" =
      heuristicPipeline "" "" :=
  ⟨by decide, c3_oracle_failure_fallback (.response "alas, no recipe today") "" "" (by decide)⟩

/-- C7.  Scenario D: the marker-stripped ingredient is kept; the
ingredient-shaped step `"- 1 oeuf"` is reclassified into the ingredients
in order; the step equal (case-insensitively) to the title hint is
dropped; the remaining prose step is kept. -/
theorem c7_scenario_d :
    tidyRecipeLists ["- 200 g farine"] ["- 1 oeuf", "Mélanger la pâte", "Recette secrète"]
      (some "Recette secrète") = (["200 g farine", "1 oeuf"], ["Mélanger la pâte"]) := by
  decide

/-- The second text of Scenario E, built by concatenation so that the
apostrophe is the exact U+0027 of the source test. -/
def scenarioEText : String := "Pas d" ++ String.mk [Char.ofNat 39] ++ "indication"

/-- C8.  Scenario E: `"Préparez en 1 h 15 min."` yields 75 minutes (hours
times 60 plus minutes from the first positive match); `"Pas d'indication"`
with two steps yields 12; and in general, whenever no time pattern
produces a strictly positive total and the step list is non-empty, the
estimate is `max 10 (6 * stepCount)` minutes. -/
theorem c8_estimate :
    estimatePrepTime "Préparez en 1 h 15 min." ["Étape 1"] = some 75 ∧
    estimatePrepTime scenarioEText ["Étape 1", "Étape 2"] = some 12 ∧
    ∀ (text : String) (steps : List String),
      timePatternMinutes (lowerStr text).data = none → steps ≠ [] →
      estimatePrepTime text steps = some ((max 10 (6 * steps.length) : Nat) : Int) := by
  refine ⟨by decide, by decide, ?_⟩
  intro text steps h hne
  unfold estimatePrepTime
  rw [h]
  simp [hne]

/-- C8 witness: the fallback branch at a concrete input. -/
theorem c8_witness :
    timePatternMinutes (lowerStr "x").data = none ∧ (["a"] : List String) ≠ [] ∧
    estimatePrepTime "x" ["a"] = some 10 := by
  refine ⟨by decide, by decide, ?_⟩
  have := c8_estimate.2.2 "x" ["a"] (by decide) (by decide)
  simpa using this

/-- Oracle content holding a single JSON object surrounded by prose. -/
def proseWrappedContent : String :=
  "Voici ! \x7b\"title\": \"Tarte\", \"ingredients\": [\"2 pommes\"], \"steps\": [\"Cuire.\"], \"prep_time_minutes\": 30\x7d Enjoy."

/-- Oracle content holding two brace-delimited JSON objects separated by
prose. -/
def twoObjectContent : String := "a \x7b\"title\": \"First\"\x7d b \x7b\"title\": \"Second\"\x7d c"

/-- The first brace-delimited block of `twoObjectContent` on its own. -/
def firstObjectBlock : String := "\x7b\"title\": \"First\"\x7d"

/-- C6 counterexample.  For a response containing two brace-delimited JSON
objects separated by prose, the source's greedy extraction spans from the
first opening brace to the last closing brace, which is not valid JSON:
nothing is extracted and the heuristic record is used — even though the
first block alone is parseable JSON, so the claimed first-block semantics
would have used its fields (title "First"). -/
theorem c6_counterexample :
    (pyJsonParse firstObjectBlock).isSome = true ∧
    (extractFirstJsonBlock (pyStrip twoObjectContent)).isNone = true ∧
    gptStructure true (.response twoObjectContent) "" "" =
      heuristicRecipe "" (combineTitleTranscript "" "") := by
  refine ⟨by decide, by decide, by decide⟩

/-- C6 (amended).  The fallback first tries the whole text as JSON and
otherwise parses the substring from the first `\x7b` to the last `\x7d`:
a single prose-wrapped object is recovered and its fields are used, while
for two brace-delimited objects separated by prose the greedy slice is not
valid JSON, so no fields are used and the heuristic record wins. -/
theorem c6_amended :
    gptStructure true (.response proseWrappedContent) "" "" =
      ⟨"Tarte", ["2 pommes"], ["Cuire."], some 30⟩ ∧
    (extractFirstJsonBlock (pyStrip twoObjectContent)).isNone = true ∧
    (gptStructure true (.response twoObjectContent) "" "").title = "Untitled Recipe" := by
  refine ⟨by decide, by decide, by decide⟩

/-- Specification of the append loop: the result extends the ingredient
list with a sublist of the extras none of whose lowercased texts is in the
seen set. -/
theorem appendExtras_spec (extras : List String) : ∀ (ings seen : List String),
    ∃ app, appendExtras ings seen extras = ings ++ app ∧
      app.Sublist extras ∧ ∀ e ∈ app, lowerStr e ∉ seen := by
  induction extras with
  | nil =>
    intro ings seen
    exact ⟨[], by simp [appendExtras], List.Sublist.refl _, by simp⟩
  | cons e rest ih =>
    intro ings seen
    by_cases h : lowerStr e ∈ seen
    · obtain ⟨app, h1, h2, h3⟩ := ih ings seen
      refine ⟨app, ?_, h2.cons e, h3⟩
      rw [appendExtras]
      simp only [h, if_pos]
      exact h1
    · obtain ⟨app, h1, h2, h3⟩ := ih (ings ++ [e]) (lowerStr e :: seen)
      refine ⟨e :: app, ?_, h2.cons₂ e, ?_⟩
      · rw [appendExtras]
        simp only [h, if_neg, not_false_iff]
        rw [h1, List.append_assoc]
        rfl
      · intro x hx
        rcases hx with _ | hx
        · exact h
        · rename_i hx
          intro hc
          exact h3 x hx (List.mem_cons_of_mem _ hc)

/-- C10.  The enrichment pass modifies only the `ingredients` field: title,
steps and duration are unchanged, every pre-existing ingredient keeps its
position (the old list is a prefix of the new one), and what is appended
is a subsequence of the title-mined extras, each of whose lowercased texts
was not already present among the ingredients. -/
theorem c10_enrich_frame (r : RecipeContent) (titleHint : String) :
    (enrichWithTitleIngredients r titleHint).title = r.title ∧
    (enrichWithTitleIngredients r titleHint).steps = r.steps ∧
    (enrichWithTitleIngredients r titleHint).prep_minutes = r.prep_minutes ∧
    ∃ app : List String,
      (enrichWithTitleIngredients r titleHint).ingredients = r.ingredients ++ app ∧
      app.Sublist (extractIngredientsFromTitle titleHint) ∧
      ∀ e ∈ app, lowerStr e ∉ r.ingredients.map lowerStr := by
  refine ⟨enrich_title r titleHint, enrich_steps r titleHint, enrich_prep r titleHint, ?_⟩
  unfold enrichWithTitleIngredients
  dsimp only
  split
  · exact ⟨[], by simp, by rename_i h; rw [h], by simp⟩
  · exact appendExtras_spec (extractIngredientsFromTitle titleHint) r.ingredients
      (r.ingredients.map lowerStr)

/-- Case-insensitive distinctness of two entries. -/
def lowNe (a b : String) : Prop := lowerStr a ≠ lowerStr b

/-- Invariant of the final lists: every entry is `strip`-fixed (hence
non-empty after trimming) and non-empty, and no two entries are equal
case-insensitively. -/
def entryInv (l : List String) : Prop :=
  (∀ e ∈ l, pyStrip e = e ∧ e ≠ "") ∧ l.Pairwise lowNe

/-- Truthiness of `INGREDIENT_LINE_RE.match` depends only on the
lowercased text (the pattern is compiled with `re.IGNORECASE`). -/
theorem ingLineMatches_lower (a b : String) (h : lowerStr a = lowerStr b) :
    ingLineMatches a = ingLineMatches b := by
  unfold ingLineMatches
  have : a.data.map pyLower = b.data.map pyLower := congrArg String.data h
  rw [this]

/-- Invariant preservation of the ingredient loop of `tidy_recipe_lists`. -/
theorem tidyIngLoop_inv (l : List String) : ∀ (kept seen : List String),
    seen = kept.map lowerStr →
    (∀ e ∈ kept, pyStrip e = e ∧ e ≠ "") →
    kept.Pairwise lowNe →
    (tidyIngLoop l kept seen).2 = (tidyIngLoop l kept seen).1.map lowerStr ∧
    (∀ e ∈ (tidyIngLoop l kept seen).1, pyStrip e = e ∧ e ≠ "") ∧
    (tidyIngLoop l kept seen).1.Pairwise lowNe := by
  induction l with
  | nil =>
    intro kept seen h1 h2 h3
    exact ⟨h1, h2, h3⟩
  | cons ing rest ih =>
    intro kept seen h1 h2 h3
    rw [tidyIngLoop]
    split
    · exact ih kept seen h1 h2 h3
    · rename_i hne
      split
      · exact ih kept seen h1 h2 h3
      · rename_i hnotseen
        apply ih
        · rw [h1, List.map_append]
          rfl
        · intro e he
          rcases List.mem_append.mp he with he | he
          · exact h2 e he
          · rcases List.mem_singleton.mp he with rfl
            exact ⟨stripListMarker_stripped _, hne⟩
        · rw [List.pairwise_append]
          refine ⟨h3, List.pairwise_singleton _ _, ?_⟩
          intro a ha b hb
          rcases List.mem_singleton.mp hb with rfl
          intro hc
          apply hnotseen
          rw [h1, ← hc]
          exact List.mem_map_of_mem lowerStr ha

/-- Invariant preservation of the step loop of `tidy_recipe_lists`: the
`seen` sets mirror the kept lists, all kept entries are clean and
case-insensitively distinct, and every kept step is distinct from every
final ingredient (case-insensitively), does not match the ingredient
grammar, and is not title-equivalent. -/
theorem tidyStepLoop_inv (tl : List String) (l : List String) :
    ∀ (ings ingSeen kept stepSeen : List String),
    ingSeen = ings.map lowerStr →
    stepSeen = kept.map lowerStr →
    (∀ e ∈ ings, pyStrip e = e ∧ e ≠ "") →
    ings.Pairwise lowNe →
    (∀ e ∈ kept, pyStrip e = e ∧ e ≠ "") →
    kept.Pairwise lowNe →
    (∀ e ∈ kept, lowerStr e ∉ ingSeen ∧ ingLineMatches e = false ∧ lowerStr e ∉ tl) →
    (tidyStepLoop tl l ings ingSeen kept stepSeen).2.1 =
      (tidyStepLoop tl l ings ingSeen kept stepSeen).1.map lowerStr ∧
    (∀ e ∈ (tidyStepLoop tl l ings ingSeen kept stepSeen).1, pyStrip e = e ∧ e ≠ "") ∧
    (tidyStepLoop tl l ings ingSeen kept stepSeen).1.Pairwise lowNe ∧
    (tidyStepLoop tl l ings ingSeen kept stepSeen).2.2.2 =
      (tidyStepLoop tl l ings ingSeen kept stepSeen).2.2.1.map lowerStr ∧
    (∀ e ∈ (tidyStepLoop tl l ings ingSeen kept stepSeen).2.2.1, pyStrip e = e ∧ e ≠ "") ∧
    (tidyStepLoop tl l ings ingSeen kept stepSeen).2.2.1.Pairwise lowNe ∧
    (∀ e ∈ (tidyStepLoop tl l ings ingSeen kept stepSeen).2.2.1,
      lowerStr e ∉ (tidyStepLoop tl l ings ingSeen kept stepSeen).2.1 ∧
      ingLineMatches e = false ∧ lowerStr e ∉ tl) := by
  induction l with
  | nil =>
    intro ings ingSeen kept stepSeen hA hB hC hD hE hF hG
    exact ⟨hA, hC, hD, hB, hE, hF, hG⟩
  | cons st rest ih =>
    intro ings ingSeen kept stepSeen hA hB hC hD hE hF hG
    rw [tidyStepLoop]
    split
    · exact ih ings ingSeen kept stepSeen hA hB hC hD hE hF hG
    · rename_i hne
      split
      · exact ih ings ingSeen kept stepSeen hA hB hC hD hE hF hG
      · rename_i hnotitle
        split
        · exact ih ings ingSeen kept stepSeen hA hB hC hD hE hF hG
        · rename_i hni
          split
          · rename_i hmatch
            apply ih
            · rw [hA, List.map_append]
              rfl
            · exact hB
            · intro e he
              rcases List.mem_append.mp he with he | he
              · exact hC e he
              · rcases List.mem_singleton.mp he with rfl
                exact ⟨stripListMarker_stripped _, hne⟩
            · rw [List.pairwise_append]
              refine ⟨hD, List.pairwise_singleton _ _, ?_⟩
              intro a ha b hb
              rcases List.mem_singleton.mp hb with rfl
              intro hc
              apply hni
              rw [hA, ← hc]
              exact List.mem_map_of_mem lowerStr ha
            · exact hE
            · exact hF
            · intro e he
              obtain ⟨hg1, hg2, hg3⟩ := hG e he
              refine ⟨?_, hg2, hg3⟩
              intro hc
              rcases List.mem_append.mp hc with hc | hc
              · exact hg1 hc
              · rcases List.mem_singleton.mp hc with hc
                rw [ingLineMatches_lower e (stripListMarker (pyStrip st)) hc] at hg2
                rw [hmatch] at hg2
                exact absurd hg2 (by simp)
          · rename_i hnomatch
            split
            · exact ih ings ingSeen kept stepSeen hA hB hC hD hE hF hG
            · rename_i hnotstep
              apply ih
              · exact hA
              · rw [hB, List.map_append]
                rfl
              · exact hC
              · exact hD
              · intro e he
                rcases List.mem_append.mp he with he | he
                · exact hE e he
                · rcases List.mem_singleton.mp he with rfl
                  exact ⟨stripListMarker_stripped _, hne⟩
              · rw [List.pairwise_append]
                refine ⟨hF, List.pairwise_singleton _ _, ?_⟩
                intro a ha b hb
                rcases List.mem_singleton.mp hb with rfl
                intro hc
                apply hnotstep
                rw [hB, ← hc]
                exact List.mem_map_of_mem lowerStr ha
              · intro e he
                rcases List.mem_append.mp he with he | he
                · exact hG e he
                · rcases List.mem_singleton.mp he with rfl
                  exact ⟨hni, Bool.of_not_eq_true hnomatch, hnotitle⟩

/-- Full invariant of `tidy_recipe_lists`: both output lists satisfy the
entry invariant, and in addition every output step is case-insensitively
distinct from every output ingredient, fails the ingredient grammar, and
is not title-equivalent. -/
theorem tidy_inv (ings steps : List String) (th : Option String) :
    entryInv (tidyRecipeLists ings steps th).1 ∧ entryInv (tidyRecipeLists ings steps th).2 ∧
    (∀ e ∈ (tidyRecipeLists ings steps th).2,
      lowerStr e ∉ (tidyRecipeLists ings steps th).1.map lowerStr ∧
      ingLineMatches e = false ∧ lowerStr e ∉ titleLowerSet th) := by
  obtain ⟨p1, p2, p3⟩ := tidyIngLoop_inv ings [] [] rfl (by simp) (List.Pairwise.nil)
  obtain ⟨q1, q2, q3, q4, q5, q6, q7⟩ :=
    tidyStepLoop_inv (titleLowerSet th) steps (tidyIngLoop ings [] []).1
      (tidyIngLoop ings [] []).2 [] [] p1 rfl p2 p3 (by simp) (List.Pairwise.nil) (by simp)
  refine ⟨⟨q2, q3⟩, ⟨q5, q6⟩, ?_⟩
  intro e he
  obtain ⟨g1, g2, g3⟩ := q7 e he
  refine ⟨?_, g2, g3⟩
  show lowerStr e ∉ List.map lowerStr
    (tidyStepLoop (titleLowerSet th) steps (tidyIngLoop ings [] []).1
      (tidyIngLoop ings [] []).2 [] []).1
  rw [← q1]
  exact g1

/-- C4 (amended).  For every input to the pipeline, every string in the
final record's ingredient and step lists is `strip`-fixed and non-empty
(hence non-empty after trimming), and no two entries of the same list are
equal case-insensitively.  A single leading list-marker layer has been
removed from each entry; an entry can still begin with a marker when the
source line stacked several markers, so full marker-freedom does not
hold. -/
theorem c4_amended (useGpt apiKey : Bool) (oracle : OracleOutcome)
    (transcript rawTitle : String) :
    entryInv (buildRecipe useGpt apiKey oracle transcript rawTitle).ingredients ∧
    entryInv (buildRecipe useGpt apiKey oracle transcript rawTitle).steps := by
  have hi : (buildRecipe useGpt apiKey oracle transcript rawTitle).ingredients =
      (tidyRecipeLists
        (enrichWithTitleIngredients
          (primaryRecipe useGpt apiKey oracle transcript rawTitle
            (combineTitleTranscript rawTitle transcript)) rawTitle).ingredients
        (enrichWithTitleIngredients
          (primaryRecipe useGpt apiKey oracle transcript rawTitle
            (combineTitleTranscript rawTitle transcript)) rawTitle).steps
        (some rawTitle)).1 := by
    unfold buildRecipe pipelineTail
    dsimp only
    rw [ensure_ingredients]
  have hs : (buildRecipe useGpt apiKey oracle transcript rawTitle).steps =
      (tidyRecipeLists
        (enrichWithTitleIngredients
          (primaryRecipe useGpt apiKey oracle transcript rawTitle
            (combineTitleTranscript rawTitle transcript)) rawTitle).ingredients
        (enrichWithTitleIngredients
          (primaryRecipe useGpt apiKey oracle transcript rawTitle
            (combineTitleTranscript rawTitle transcript)) rawTitle).steps
        (some rawTitle)).2 := by
    unfold buildRecipe pipelineTail
    dsimp only
    rw [ensure_steps]
  rw [hi, hs]
  obtain ⟨h1, h2, _⟩ := tidy_inv _ _ _
  exact ⟨h1, h2⟩

/-- C4 counterexample.  The marker stripper removes only one marker layer:
a transcript line `"- - x"` survives tidying as the step `"- x"`, which
still begins with the bullet marker `-` (stripping it again would change
it), so the final record does contain an entry with a leading list
marker. -/
theorem c4_counterexample :
    (buildRecipe false false .failure "- - x" "").steps = ["- x"] ∧
    stripListMarker "- x" ≠ "- x" := by
  refine ⟨by decide, by decide⟩

/-- Fixpoint behaviour of the ingredient loop: on a list of clean,
marker-free, pairwise-distinct entries none of which is already seen, the
loop keeps everything verbatim. -/
theorem tidyIngLoop_fix (l : List String) : ∀ (kept seen : List String),
    (∀ e ∈ l, stripListMarker (pyStrip e) = e ∧ e ≠ "") →
    l.Pairwise lowNe →
    (∀ e ∈ l, lowerStr e ∉ seen) →
    tidyIngLoop l kept seen = (kept ++ l, seen ++ l.map lowerStr) := by
  induction l with
  | nil =>
    intro kept seen _ _ _
    simp [tidyIngLoop]
  | cons e rest ih =>
    intro kept seen h1 h2 h3
    have he := h1 e (List.mem_cons_self e rest)
    rw [tidyIngLoop, he.1, if_neg he.2, if_neg (h3 e (List.mem_cons_self e rest))]
    rw [ih (kept ++ [e]) (seen ++ [lowerStr e]) (fun x hx => h1 x (List.mem_cons_of_mem e hx))
      (List.Pairwise.of_cons h2)]
    · simp
    · intro x hx hc
      rcases List.mem_append.mp hc with hc | hc
      · exact h3 x (List.mem_cons_of_mem e hx) hc
      · rcases List.mem_singleton.mp hc with hc
        exact (List.rel_of_pairwise_cons h2 hx) hc.symm

/-- Fixpoint behaviour of the step loop: on a list of clean, marker-free,
pairwise-distinct steps that are not title-equivalent, not seen as
ingredients or steps, and fail the ingredient grammar, the loop keeps
everything verbatim and the ingredient state is untouched. -/
theorem tidyStepLoop_fix (tl : List String) (l : List String) :
    ∀ (ings ingSeen kept stepSeen : List String),
    (∀ e ∈ l, stripListMarker (pyStrip e) = e ∧ e ≠ "" ∧ lowerStr e ∉ tl ∧
      lowerStr e ∉ ingSeen ∧ ingLineMatches e = false ∧ lowerStr e ∉ stepSeen) →
    l.Pairwise lowNe →
    tidyStepLoop tl l ings ingSeen kept stepSeen =
      (ings, ingSeen, kept ++ l, stepSeen ++ l.map lowerStr) := by
  induction l with
  | nil =>
    intro ings ingSeen kept stepSeen _ _
    simp [tidyStepLoop]
  | cons e rest ih =>
    intro ings ingSeen kept stepSeen h1 h2
    obtain ⟨g1, g2, g3, g4, g5, g6⟩ := h1 e (List.mem_cons_self e rest)
    rw [tidyStepLoop, g1, if_neg g2, if_neg g3, if_neg g4]
    rw [if_neg (by rw [g5]; exact Bool.false_ne_true), if_neg g6]
    rw [ih ings ingSeen (kept ++ [e]) (stepSeen ++ [lowerStr e])
      ?_ (List.Pairwise.of_cons h2)]
    · simp
    · intro x hx
      obtain ⟨f1, f2, f3, f4, f5, f6⟩ := h1 x (List.mem_cons_of_mem e hx)
      refine ⟨f1, f2, f3, f4, f5, ?_⟩
      intro hc
      rcases List.mem_append.mp hc with hc | hc
      · exact f6 hc
      · rcases List.mem_singleton.mp hc with hc
        exact (List.rel_of_pairwise_cons h2 hx) hc.symm

/-- C5 (amended).  The tidy pass is idempotent on its own output provided
no output entry still begins with a list marker: applying
`tidy_recipe_lists` (with the same title hint) to its own output yields
that same output.  (Without the proviso a stacked marker such as
`"- - x"` is stripped one layer per application, so idempotence fails;
see the counterexample.) -/
theorem c5_amended (ings steps : List String) (th : Option String)
    (hI : ∀ e ∈ (tidyRecipeLists ings steps th).1, stripListMarker e = e)
    (hS : ∀ e ∈ (tidyRecipeLists ings steps th).2, stripListMarker e = e) :
    tidyRecipeLists (tidyRecipeLists ings steps th).1 (tidyRecipeLists ings steps th).2 th =
      tidyRecipeLists ings steps th := by
  obtain ⟨p1, p2, p3⟩ := tidyIngLoop_inv ings [] [] rfl (by simp) List.Pairwise.nil
  obtain ⟨q1, q2, q3, q4, q5, q6, q7⟩ :=
    tidyStepLoop_inv (titleLowerSet th) steps (tidyIngLoop ings [] []).1
      (tidyIngLoop ings [] []).2 [] [] p1 rfl p2 p3 (by simp) List.Pairwise.nil (by simp)
  have hP2 : tidyIngLoop
      (tidyStepLoop (titleLowerSet th) steps (tidyIngLoop ings [] []).1
        (tidyIngLoop ings [] []).2 [] []).1 [] [] =
      ([] ++ (tidyStepLoop (titleLowerSet th) steps (tidyIngLoop ings [] []).1
        (tidyIngLoop ings [] []).2 [] []).1,
       [] ++ (tidyStepLoop (titleLowerSet th) steps (tidyIngLoop ings [] []).1
        (tidyIngLoop ings [] []).2 [] []).1.map lowerStr) := by
    apply tidyIngLoop_fix
    · intro e he
      obtain ⟨e1, e2⟩ := q2 e he
      refine ⟨?_, e2⟩
      rw [e1]
      exact hI e he
    · exact q3
    · simp
  have hQ : tidyStepLoop (titleLowerSet th)
      (tidyStepLoop (titleLowerSet th) steps (tidyIngLoop ings [] []).1
        (tidyIngLoop ings [] []).2 [] []).2.2.1
      (tidyStepLoop (titleLowerSet th) steps (tidyIngLoop ings [] []).1
        (tidyIngLoop ings [] []).2 [] []).1
      ((tidyStepLoop (titleLowerSet th) steps (tidyIngLoop ings [] []).1
        (tidyIngLoop ings [] []).2 [] []).1.map lowerStr) [] [] =
      ((tidyStepLoop (titleLowerSet th) steps (tidyIngLoop ings [] []).1
        (tidyIngLoop ings [] []).2 [] []).1,
       (tidyStepLoop (titleLowerSet th) steps (tidyIngLoop ings [] []).1
        (tidyIngLoop ings [] []).2 [] []).1.map lowerStr,
       [] ++ (tidyStepLoop (titleLowerSet th) steps (tidyIngLoop ings [] []).1
        (tidyIngLoop ings [] []).2 [] []).2.2.1,
       [] ++ (tidyStepLoop (titleLowerSet th) steps (tidyIngLoop ings [] []).1
        (tidyIngLoop ings [] []).2 [] []).2.2.1.map lowerStr) := by
    apply tidyStepLoop_fix
    · intro e he
      obtain ⟨e1, e2⟩ := q5 e he
      obtain ⟨g1, g2, g3⟩ := q7 e he
      refine ⟨?_, e2, g3, ?_, g2, by simp⟩
      · rw [e1]
        exact hS e he
      · rw [← q1]
        exact g1
    · exact q6
  show tidyRecipeLists
      (tidyStepLoop (titleLowerSet th) steps (tidyIngLoop ings [] []).1
        (tidyIngLoop ings [] []).2 [] []).1
      (tidyStepLoop (titleLowerSet th) steps (tidyIngLoop ings [] []).1
        (tidyIngLoop ings [] []).2 [] []).2.2.1 th =
      ((tidyStepLoop (titleLowerSet th) steps (tidyIngLoop ings [] []).1
        (tidyIngLoop ings [] []).2 [] []).1,
       (tidyStepLoop (titleLowerSet th) steps (tidyIngLoop ings [] []).1
        (tidyIngLoop ings [] []).2 [] []).2.2.1)
  unfold tidyRecipeLists
  dsimp only
  rw [hP2]
  dsimp only
  rw [List.nil_append, List.nil_append, hQ]
  simp

/-- C5 counterexample.  On the stacked-marker input `["- - x"]` the first
tidy pass yields the ingredient `"- x"`, and a second pass strips a
further marker layer to `"x"`: applying tidy to its own output does not
yield that output. -/
theorem c5_counterexample :
    tidyRecipeLists (tidyRecipeLists ["- - x"] [] none).1
      (tidyRecipeLists ["- - x"] [] none).2 none ≠ tidyRecipeLists ["- - x"] [] none := by
  decide

/-- C5 witness: idempotence holds at a concrete marker-free output. -/
theorem c5_witness :
    (∀ e ∈ (tidyRecipeLists ["2 eggs"] ["Mix well"] (some "T")).1, stripListMarker e = e) ∧
    (∀ e ∈ (tidyRecipeLists ["2 eggs"] ["Mix well"] (some "T")).2, stripListMarker e = e) ∧
    tidyRecipeLists (tidyRecipeLists ["2 eggs"] ["Mix well"] (some "T")).1
      (tidyRecipeLists ["2 eggs"] ["Mix well"] (some "T")).2 (some "T") =
      tidyRecipeLists ["2 eggs"] ["Mix well"] (some "T") :=
  ⟨by decide, by decide, c5_amended ["2 eggs"] ["Mix well"] (some "T") (by decide) (by decide)⟩

/-! Lemmas for C9: character-class bookkeeping and engine failure. -/

/-- Codes of the whitespace class. -/
theorem pyWsCodes (c : Char) (h : pyWs c = true) :
    c.toNat = 32 ∨ c.toNat = 9 ∨ c.toNat = 10 ∨ c.toNat = 13 ∨ c.toNat = 11 ∨ c.toNat = 12 := by
  unfold pyWs at h
  simp only [Bool.or_eq_true, decide_eq_true_eq] at h
  rcases h with ((((h | h) | h) | h) | h) | h <;> subst h <;> simp

/-- Codes of the bullet-marker class. -/
theorem bulletCodes (c : Char) (h : bulletChar c = true) :
    c.toNat = 45 ∨ c.toNat = 42 ∨ c.toNat = 8226 := by
  unfold bulletChar at h
  simp only [Bool.or_eq_true, decide_eq_true_eq] at h
  rcases h with (h | h) | h <;> subst h <;> simp

/-- Codes of the digit class. -/
theorem digitCodes (c : Char) (h : isDigitC c = true) : 48 ≤ c.toNat ∧ c.toNat ≤ 57 := by
  unfold isDigitC Char.isDigit at h
  simp only [Bool.and_eq_true, decide_eq_true_eq] at h
  exact ⟨h.1, h.2⟩

/-- Codes of the vulgar-fraction class. -/
theorem vulgarCodes (c : Char) (h : vulgarChar c = true) :
    c.toNat = 189 ∨ c.toNat = 188 ∨ c.toNat = 190 ∨ c.toNat = 8531 ∨ c.toNat = 8532 ∨
    c.toNat = 8539 ∨ c.toNat = 8540 ∨ c.toNat = 8541 ∨ c.toNat = 8542 := by
  unfold vulgarChar at h
  simp only [List.mem_cons, List.not_mem_nil, or_false, decide_eq_true_eq] at h
  rcases h with h | h | h | h | h | h | h | h | h <;> subst h <;> simp

/-- Conversion of a small code point through `Char.ofNat`. -/
theorem charOfNatToNat (n : Nat) (h : n < 0xD800) : (Char.ofNat n).toNat = n := by
  have hv : n.isValidChar := Or.inl h
  rw [Char.ofNat, dif_pos hv]
  rfl

/-- Case mapping either fixes a character or maps an upper-case letter
(codes 65–90, 192–222, 376) to its lower-case image (codes 97–122,
224–255). -/
theorem pyLowerSpec (c : Char) : pyLower c = c ∨
    (((65 ≤ c.toNat ∧ c.toNat ≤ 90) ∨ (192 ≤ c.toNat ∧ c.toNat ≤ 222) ∨ c.toNat = 376) ∧
     ((97 ≤ (pyLower c).toNat ∧ (pyLower c).toNat ≤ 122) ∨
      (224 ≤ (pyLower c).toNat ∧ (pyLower c).toNat ≤ 255))) := by
  unfold pyLower
  split
  · rename_i h
    simp only [Bool.and_eq_true, decide_eq_true_eq] at h
    have h1 : 65 ≤ c.toNat := by rw [Char.le_def] at h; exact h.1
    have h2 : c.toNat ≤ 90 := by rw [Char.le_def] at h; exact h.2
    have hv : (Char.ofNat (c.toNat + 32)).toNat = c.toNat + 32 :=
      charOfNatToNat _ (by omega)
    right
    refine ⟨Or.inl ⟨h1, h2⟩, Or.inl ?_⟩
    rw [hv]
    omega
  · split
    · rename_i h
      simp only [Bool.and_eq_true, decide_eq_true_eq] at h
      have hb : 192 ≤ c.toNat ∧ c.toNat ≤ 222 := by omega
      have hv : (Char.ofNat (c.toNat + 32)).toNat = c.toNat + 32 :=
        charOfNatToNat _ (by omega)
      right
      refine ⟨Or.inr (Or.inl hb), Or.inr ?_⟩
      rw [hv]
      omega
    · split
      · rename_i h
        right
        refine ⟨Or.inr (Or.inr h), Or.inr ?_⟩
        simp
      · left; rfl

/-- Case mapping does not affect the whitespace class. -/
theorem pyWs_pyLower (c : Char) : pyWs (pyLower c) = pyWs c := by
  rcases pyLowerSpec c with h | ⟨hin, hout⟩
  · rw [h]
  · have h1 : pyWs c = false := by
      cases hw : pyWs c
      · rfl
      · have := pyWsCodes c hw
        omega
    have h2 : pyWs (pyLower c) = false := by
      cases hw : pyWs (pyLower c)
      · rfl
      · have := pyWsCodes _ hw
        omega
    rw [h1, h2]

/-- Case mapping does not affect the bullet-marker class. -/
theorem bulletChar_pyLower (c : Char) : bulletChar (pyLower c) = bulletChar c := by
  rcases pyLowerSpec c with h | ⟨hin, hout⟩
  · rw [h]
  · have h1 : bulletChar c = false := by
      cases hw : bulletChar c
      · rfl
      · have := bulletCodes c hw
        omega
    have h2 : bulletChar (pyLower c) = false := by
      cases hw : bulletChar (pyLower c)
      · rfl
      · have := bulletCodes _ hw
        omega
    rw [h1, h2]

/-- Characters that can start a quantity token of `FRACTION_RE`: a digit
(integers, decimals and fractions all start with one) or a vulgar
fraction glyph. -/
def quantityStartChar (c : Char) : Bool := isDigitC c || vulgarChar c

/-- Case mapping does not affect quantity-start characters. -/
theorem quantityStartChar_pyLower (c : Char) :
    quantityStartChar (pyLower c) = quantityStartChar c := by
  rcases pyLowerSpec c with h | ⟨hin, hout⟩
  · rw [h]
  · have h1 : quantityStartChar c = false := by
      cases hw : quantityStartChar c
      · rfl
      · unfold quantityStartChar at hw
        rcases Bool.or_eq_true_iff.mp hw with hw | hw
        · have := digitCodes c hw
          omega
        · have := vulgarCodes c hw
          omega
    have h2 : quantityStartChar (pyLower c) = false := by
      cases hw : quantityStartChar (pyLower c)
      · rfl
      · unfold quantityStartChar at hw
        rcases Bool.or_eq_true_iff.mp hw with hw | hw
        · have := digitCodes _ hw
          omega
        · have := vulgarCodes _ hw
          omega
    rw [h1, h2]

/-- A whitespace character is neither a bullet nor a quantity start. -/
theorem ws_not_bullet_not_qty (c : Char) (h : pyWs c = true) :
    bulletChar c = false ∧ quantityStartChar c = false := by
  have hc := pyWsCodes c h
  constructor
  · cases hb : bulletChar c
    · rfl
    · have := bulletCodes c hb
      omega
  · cases hq : quantityStartChar c
    · rfl
    · unfold quantityStartChar at hq
      rcases Bool.or_eq_true_iff.mp hq with hq | hq
      · have := digitCodes c hq
        omega
      · have := vulgarCodes c hq
        omega

/-- A bullet marker is not a quantity start. -/
theorem bullet_not_qty (c : Char) (h : bulletChar c = true) : quantityStartChar c = false := by
  have hc := bulletCodes c h
  cases hq : quantityStartChar c
  · rfl
  · unfold quantityStartChar at hq
    rcases Bool.or_eq_true_iff.mp hq with hq | hq
    · have := digitCodes c hq
      omega
    · have := vulgarCodes c hq
      omega

/-- Head character at the position where `INGREDIENT_LINE_RE` must find
the quantity token: after optional leading whitespace, one optional
bullet marker, and further whitespace. -/
def afterMarkerHead (l : List Char) : Option Char :=
  match l.dropWhile pyWs with
  | [] => none
  | c :: rest => if bulletChar c then (rest.dropWhile pyWs).head? else some c

/-- The claim's predicate: after an optional leading bullet marker, the
line does not begin with a quantity token (an integer, a decimal with
comma or dot, a simple fraction, or a vulgar fraction glyph — all of
which start with a digit or a fraction glyph). -/
def lacksQuantityStart (s : String) : Bool :=
  match afterMarkerHead s.data with
  | none => true
  | some c => !quantityStartChar c

/-- Case mapping commutes with dropping leading whitespace. -/
theorem mapLower_dropWhileWs (l : List Char) :
    (l.map pyLower).dropWhile pyWs = (l.dropWhile pyWs).map pyLower := by
  induction l with
  | nil => rfl
  | cons c cs ih =>
    simp only [List.map_cons, List.dropWhile_cons, pyWs_pyLower]
    by_cases h : pyWs c
    · rw [if_pos h, if_pos h, ih]
    · rw [if_neg h, if_neg h, List.map_cons]

/-- Case mapping commutes with locating the quantity position. -/
theorem afterMarkerHead_lower (l : List Char) :
    afterMarkerHead (l.map pyLower) = (afterMarkerHead l).map pyLower := by
  unfold afterMarkerHead
  rw [mapLower_dropWhileWs]
  cases h : l.dropWhile pyWs with
  | nil => rfl
  | cons c rest =>
    simp only [List.map_cons, bulletChar_pyLower]
    by_cases hb : bulletChar c
    · rw [if_pos hb, if_pos hb, mapLower_dropWhileWs]
      cases rest.dropWhile pyWs <;> rfl
    · rw [if_neg hb, if_neg hb]
      rfl

/-- Unfolding equations of the matcher (all definitional). -/
theorem mtch_seq2 (full : List Char) (p q : Pat) (s : List Char) (caps : Caps)
    (k : List Char → Caps → Option (Nat × Caps)) :
    mtch full (.seq2 p q) s caps k =
      mtch full p s caps (fun s' caps' => mtch full q s' caps' k) := rfl

/-- Star unfolding: the greedy suffixes are tried in order. -/
theorem mtch_star (full : List Char) (f : Char → Bool) (s : List Char) (caps : Caps)
    (k : List Char → Caps → Option (Nat × Caps)) :
    mtch full (.star f) s caps k = (greedySuffixes f s).findSome? (fun s' => k s' caps) := rfl

/-- Option unfolding: present branch first. -/
theorem mtch_opt (full : List Char) (p : Pat) (s : List Char) (caps : Caps)
    (k : List Char → Caps → Option (Nat × Caps)) :
    mtch full (.opt p) s caps k = (mtch full p s caps k).orElse (fun _ => k s caps) := rfl

/-- Failing `orElse` combination. -/
theorem orElse_none (a : Option (Nat × Caps)) (f : Unit → Option (Nat × Caps))
    (ha : a = none) (hf : f () = none) : a.orElse f = none := by
  subst ha
  exact hf

/-- Every greedy suffix is either the full whitespace drop or still starts
with a class character. -/
theorem gsMem (f : Char → Bool) (l : List Char) : ∀ x ∈ greedySuffixes f l,
    x = l.dropWhile f ∨ ∃ c t, x = c :: t ∧ f c = true := by
  induction l with
  | nil =>
    intro x hx
    simp [greedySuffixes] at hx
    subst hx
    left
    rfl
  | cons c cs ih =>
    intro x hx
    unfold greedySuffixes at hx
    by_cases h : f c
    · rw [if_pos h] at hx
      rcases List.mem_append.mp hx with hx | hx
      · rcases ih x hx with h1 | h1
        · left
          rw [h1, List.dropWhile_cons, if_pos h]
        · right
          exact h1
      · rcases List.mem_singleton.mp hx with rfl
        right
        exact ⟨c, cs, rfl, h⟩
    · rw [if_neg h] at hx
      rcases List.mem_singleton.mp hx with rfl
      left
      rw [List.dropWhile_cons, if_neg h]

/-- Greedy suffixes share the whitespace drop of the original list. -/
theorem gsDropWhile (f : Char → Bool) (l : List Char) : ∀ x ∈ greedySuffixes f l,
    x.dropWhile f = l.dropWhile f := by
  induction l with
  | nil =>
    intro x hx
    simp [greedySuffixes] at hx
    subst hx
    rfl
  | cons c cs ih =>
    intro x hx
    unfold greedySuffixes at hx
    by_cases h : f c
    · rw [if_pos h] at hx
      rcases List.mem_append.mp hx with hx | hx
      · rw [ih x hx, List.dropWhile_cons, if_pos h]
      · rcases List.mem_singleton.mp hx with rfl
        rfl
    · rw [if_neg h] at hx
      rcases List.mem_singleton.mp hx with rfl
      rfl

/-- The quantity group fails on an empty suffix or one whose head is not a
quantity-start character, for any continuation. -/
theorem fracGrp_fail (full s : List Char) (caps : Caps)
    (k : List Char → Caps → Option (Nat × Caps))
    (h : s = [] ∨ ∃ c t, s = c :: t ∧ quantityStartChar c = false) :
    mtch full fracGrp s caps k = none := by
  rcases h with rfl | ⟨c, t, rfl, hq⟩
  · rfl
  · have hd : isDigitC c = false := by
      unfold quantityStartChar at hq
      exact (Bool.or_eq_false_iff.mp hq).1
    have hv : vulgarChar c = false := by
      unfold quantityStartChar at hq
      exact (Bool.or_eq_false_iff.mp hq).2
    simp [mtch, fracGrp, fracDec, fracSlash, digitsPlus, hd, hv]

/-- After the optional marker, the pattern tail `\s*(FRACTION)…` fails on a
suffix whose post-whitespace head is not a quantity start, for any
continuation. -/
theorem p3_fail (full y : List Char) (caps : Caps)
    (k : List Char → Caps → Option (Nat × Caps))
    (h : ∀ c, (y.dropWhile pyWs).head? = some c → quantityStartChar c = false) :
    mtch full (.seq2 (.star pyWs) (.seq2 fracGrp ingTail)) y caps k = none := by
  rw [mtch_seq2, mtch_star]
  apply List.findSome?_eq_none_iff.mpr
  intro z hz
  rw [mtch_seq2]
  apply fracGrp_fail
  rcases gsMem pyWs y z hz with h1 | ⟨c, t, rfl, hc⟩
  · have h2 := gsDropWhile pyWs y z hz
    subst h1
    cases hdw : y.dropWhile pyWs with
    | nil =>
      left
      rfl
    | cons d rest =>
      right
      exact ⟨d, rest, rfl, h d (by rw [hdw]; rfl)⟩
  · right
    exact ⟨c, t, rfl, (ws_not_bullet_not_qty c hc).2⟩

/-- Failure of the whole ingredient pattern when the quantity position is
empty or does not hold a quantity-start character. -/
theorem ingPat_fail (L : List Char)
    (h : ∀ c, afterMarkerHead L = some c → quantityStartChar c = false) :
    matchAt ingPat L 0 = none := by
  have hNoQty1 : ∀ e, (L.dropWhile pyWs).head? = some e → quantityStartChar e = false := by
    intro e he
    cases hdw : L.dropWhile pyWs with
    | nil =>
      rw [hdw] at he
      exact absurd he (by simp)
    | cons d rest =>
      rw [hdw] at he
      simp only [List.head?_cons, Option.some.injEq] at he
      subst he
      by_cases hb : bulletChar d
      · exact bullet_not_qty d hb
      · apply h d
        unfold afterMarkerHead
        rw [hdw]
        simp [hb]
  show mtch L ingPat (L.drop 0) [] (fun rest caps => some (rest.length, caps)) = none
  rw [List.drop_zero]
  unfold ingPat
  rw [mtch_seq2, mtch_star]
  apply List.findSome?_eq_none_iff.mpr
  intro x hx
  rw [mtch_seq2, mtch_opt]
  apply orElse_none
  · -- present branch: the bullet marker is consumed (or the class fails)
    show mtch L (.cls bulletChar) x [] _ = none
    rcases hx2 : x with _ | ⟨d, t⟩
    · rfl
    · show (if bulletChar d then
          mtch L (.seq2 (.star pyWs) (.seq2 fracGrp ingTail)) t [] _ else none) = none
      by_cases hb : bulletChar d
      · rw [if_pos hb]
        rcases gsMem pyWs L x hx with h1 | ⟨c, t2, hct, hc⟩
        · -- x is the whitespace drop, d its non-whitespace head, a bullet:
          -- the quantity position is the head after the whitespace in t
          apply p3_fail
          intro e he
          apply h e
          unfold afterMarkerHead
          rw [← h1, hx2]
          simp only [hb, if_true]
          exact he
        · -- x still starts with whitespace: whitespace is not a bullet
          rw [hx2] at hct
          have : pyWs d = true := by
            injection hct with hct1 hct2
            rw [← hct1] at hc
            exact hc
          exact absurd hb (by rw [(ws_not_bullet_not_qty d this).1]; exact Bool.false_ne_true)
      · rw [if_neg hb]
  · -- skipped-marker branch: the quantity must sit at the first
    -- non-whitespace character of x
    show mtch L (.seq2 (.star pyWs) (.seq2 fracGrp ingTail)) x [] _ = none
    apply p3_fail
    intro e he
    rw [gsDropWhile pyWs L x hx] at he
    exact hNoQty1 e he

/-- The candidate side of the guess loop is the filter-map of the per-line
classifier. -/
theorem guessLoop_eq_filterMap (lines : List String) :
    (guessLoop lines).1 = lines.filterMap lineToCandidate := by
  induction lines with
  | nil => rfl
  | cons l rest ih =>
    rw [guessLoop, List.filterMap_cons]
    cases h : lineToCandidate l
    · dsimp only
      exact ih
    · dsimp only
      rw [ih]

/-- C9.  A line that, after an optional leading bullet marker, does not
begin with a quantity token (integer, decimal, simple fraction, or vulgar
fraction glyph) never matches `INGREDIENT_LINE_RE`, so the per-line
classifier of `guess_ingredients_and_steps` never renders it as an
ingredient; and every ingredient that `guess_ingredients_and_steps`
returns comes from a line the classifier accepted. -/
theorem c9_no_quantity_no_ingredient (s : String) (h : lacksQuantityStart s = true) :
    ingredientLineMatch s = none ∧ lineToCandidate s = none ∧
    ∀ t : String, (guessIngredientsAndSteps t).1 = (linesOf t).filterMap lineToCandidate := by
  have hm : ingredientLineMatch s = none := by
    unfold ingredientLineMatch
    rw [ingPat_fail (s.data.map pyLower) ?_]
    intro c hc
    rw [afterMarkerHead_lower] at hc
    unfold lacksQuantityStart at h
    cases hd : afterMarkerHead s.data with
    | none =>
      rw [hd] at hc
      exact absurd hc (by simp)
    | some d =>
      rw [hd] at hc
      simp only [Option.map_some', Option.some.injEq] at hc
      subst hc
      rw [hd] at h
      rw [quantityStartChar_pyLower]
      simpa using h
  refine ⟨hm, ?_, ?_⟩
  · unfold lineToCandidate
    rw [hm]
  · intro t
    exact guessLoop_eq_filterMap (linesOf t)

/-- C9 witness: a prose line at a concrete input. -/
theorem c9_witness :
    lacksQuantityStart "- Mélangez bien la pâte" = true ∧
    ingredientLineMatch "- Mélangez bien la pâte" = none ∧
    lineToCandidate "- Mélangez bien la pâte" = none :=
  ⟨by decide, (c9_no_quantity_no_ingredient "- Mélangez bien la pâte" (by decide)).1,
    (c9_no_quantity_no_ingredient "- Mélangez bien la pâte" (by decide)).2.1⟩
